import Mathlib

/-!
# solutions_python_lib: the Python extension glue and the expansion core

Verification development for `src/extensions/python/python_extension.c`.

The C file is glue between CPython and Go handlers exported through
`_cgo_export.h`.  Two layers are embedded here.

* Part I embeds what the C file itself contains: the method table
  `solutions_SolutionMethods`, the slot table `solutions_SolutionTypeSlots`
  and the three `PyArg_ParseTuple` shims.  The CPython entry points those
  tables and shims rely on (`PyArg_ParseTuple` for formats made of `s`
  units, the `METH_*` calling conventions, the sentinel-terminated table
  walks) are embedded from the CPython C API as documented.
* Part II embeds the expansion core behind the Go handlers.  The handlers'
  code is not part of the C file, so that layer is modelled from the
  specification (sections 3, 4 and 7).  The terminal operation is reached
  the way the C file registers it: through the method table, with the one
  object its calling convention hands to the handler.
-/

deriving instance DecidableEq for Except

namespace Solutions

/-! ## Part I: the CPython side -/

/-- Python exceptions that the embedded CPython entry points can raise. -/
inductive PyExc
  | SystemError
  | TypeError
  | ValueError
  | UnicodeEncodeError
  | AttributeError
  deriving DecidableEq, Repr

/-- Python objects, as far as argument parsing can tell them apart.  A `str`
is its sequence of code points (Python strings may hold lone surrogates and
the code point 0), a `float` is kept as its bit pattern. -/
inductive PyObject
  | none
  | bool (b : Bool)
  | int (n : Int)
  | float (bits : Nat)
  | str (codepoints : List Nat)
  | bytes (data : List Nat)
  | tuple (items : List PyObject)
  | list (items : List PyObject)
  | dict (items : List (PyObject × PyObject))
  deriving Repr

/-- A C string handed back through a `char **`: the bytes before the
terminating NUL. -/
abbrev CString := List Nat

/-- UTF-8 encoding of one code point; surrogates and values past U+10FFFF
have no encoding. -/
def utf8EncodeCodePoint (c : Nat) : Option (List Nat) :=
  if c < 0x80 then some [c]
  else if c < 0x800 then some [0xC0 + c / 64, 0x80 + c % 64]
  else if 0xD800 ≤ c ∧ c ≤ 0xDFFF then none
  else if c < 0x10000 then
    some [0xE0 + c / 4096, 0x80 + c / 64 % 64, 0x80 + c % 64]
  else if c < 0x110000 then
    some [0xF0 + c / 262144, 0x80 + c / 4096 % 64, 0x80 + c / 64 % 64, 0x80 + c % 64]
  else none

/-- `PyUnicode_AsUTF8AndSize`: the UTF-8 buffer of a string (without the
terminating NUL), or failure when a code point cannot be encoded. -/
def PyUnicode_AsUTF8AndSize : List Nat → Option (List Nat)
  | [] => some []
  | c :: cs =>
    match utf8EncodeCodePoint c, PyUnicode_AsUTF8AndSize cs with
    | some bs, some rest => some (bs ++ rest)
    | _, _ => Option.none

/-- C `strlen` on a buffer that is followed by a terminating NUL. -/
def strlen : List Nat → Nat
  | [] => 0
  | b :: bs => if b = 0 then 0 else strlen bs + 1

/-- `convertsimple` of CPython's `getargs.c` for the format unit `s`: a
`str` is converted to its UTF-8 C string and is refused when it holds an
embedded null; any other object is a `TypeError`.  Other format units are
outside this embedding and reported as a bad format character. -/
def convertsimple (arg : PyObject) (c : Char) : Except PyExc CString :=
  if c = 's' then
    match arg with
    | .str cps =>
      match PyUnicode_AsUTF8AndSize cps with
      | Option.none => .error .UnicodeEncodeError
      | some sarg =>
        if strlen sarg ≠ sarg.length then .error .ValueError
        else .ok sarg
    | _ => .error .TypeError
  else .error .SystemError

/-- The conversion loop of `vgetargs1`: one format unit per tuple item, left
to right, stopping at the first item that fails. -/
def convertItems : List PyObject → List Char → Except PyExc (List CString)
  | [], _ => .ok []
  | _ :: _, [] => .error .SystemError
  | arg :: rest, c :: fmt =>
    match convertsimple arg c with
    | .error e => .error e
    | .ok p =>
      match convertItems rest fmt with
      | .error e => .error e
      | .ok ps => .ok (p :: ps)

/-- `PyArg_ParseTuple(args, format, ...)` for a format of single-letter
units: `args` must be a tuple (`SystemError` otherwise), its length must be
the number of units (`TypeError` otherwise), then every item is converted.
The result lists the values stored through the output pointers. -/
def PyArg_ParseTuple (args : PyObject) (format : String) : Except PyExc (List CString) :=
  match args with
  | .tuple items =>
    if items.length ≠ format.data.length then .error .TypeError
    else convertItems items format.data
  | _ => .error .SystemError

/-- `int PyArg_ParseTuple_S(PyObject * args, char ** arg)`. -/
def PyArg_ParseTuple_S (args : PyObject) : Except PyExc CString :=
  match PyArg_ParseTuple args "s" with
  | .ok [arg] => .ok arg
  | .ok _ => .error .SystemError
  | .error e => .error e

/-- `int PyArg_ParseTuple_SS(PyObject * args, char ** key, char ** value)`. -/
def PyArg_ParseTuple_SS (args : PyObject) : Except PyExc (CString × CString) :=
  match PyArg_ParseTuple args "ss" with
  | .ok [key, value] => .ok (key, value)
  | .ok _ => .error .SystemError
  | .error e => .error e

/-- `int PyArg_MyArgsParsing(PyObject *args, char **content, char **user,
char **label, char **branch)`. -/
def PyArg_MyArgsParsing (args : PyObject) :
    Except PyExc (CString × CString × CString × CString) :=
  match PyArg_ParseTuple args "ssss" with
  | .ok [content, user, label, branch] => .ok (content, user, label, branch)
  | .ok _ => .error .SystemError
  | .error e => .error e

/-! ### Method and slot tables -/

/-- Function symbols the tables refer to (declared in `_cgo_export.h` and
`Python.h`). -/
inductive CFunction
  | solutions_Solution_GenerateRunSequence
  | solutions_Solution_SetValue
  | solutions_Solution_AddValues
  | solutions_SolutionDealloc
  | solutions_SolutionInit
  | PyType_GenericNew
  deriving DecidableEq, Repr

/-- Calling-convention flag of `methodobject.h`: positional arguments in a tuple. -/
def METH_VARARGS : Nat := 0x0001
/-- Calling-convention flag of `methodobject.h`: keyword arguments accepted. -/
def METH_KEYWORDS : Nat := 0x0002
/-- Calling-convention flag of `methodobject.h`: no argument. -/
def METH_NOARGS : Nat := 0x0004
/-- Calling-convention flag of `methodobject.h`: exactly one object argument. -/
def METH_O : Nat := 0x0008
/-- Calling-convention flag of `methodobject.h`: vector call. -/
def METH_FASTCALL : Nat := 0x0080
/-- Calling-convention flag of `methodobject.h`: defining class passed. -/
def METH_METHOD : Nat := 0x0200

/-- `PyMethodDef`; `none` stands for a NULL pointer. -/
structure PyMethodDef where
  ml_name : Option String
  ml_meth : Option CFunction
  ml_flags : Nat
  ml_doc : Option String
  deriving DecidableEq, Repr

/-- `static PyMethodDef solutions_SolutionMethods[]`. -/
def solutions_SolutionMethods : List PyMethodDef :=
  [ { ml_name := some "generate_run_sequence",
      ml_meth := some .solutions_Solution_GenerateRunSequence,
      ml_flags := METH_O,
      ml_doc := some "Generate list of json configs to run solution" },
    { ml_name := some "set_value",
      ml_meth := some .solutions_Solution_SetValue,
      ml_flags := METH_VARARGS,
      ml_doc := some "Set value for custom template variable" },
    { ml_name := some "add_values",
      ml_meth := some .solutions_Solution_AddValues,
      ml_flags := METH_O,
      ml_doc := some "Set values for custom template variables using dict" },
    { ml_name := Option.none, ml_meth := Option.none, ml_flags := 0, ml_doc := Option.none } ]

/-- Slot id of `typeslots.h`. -/
def Py_tp_dealloc : Nat := 52
/-- Slot id of `typeslots.h`. -/
def Py_tp_doc : Nat := 56
/-- Slot id of `typeslots.h`. -/
def Py_tp_init : Nat := 60
/-- Slot id of `typeslots.h`. -/
def Py_tp_methods : Nat := 64
/-- Slot id of `typeslots.h`. -/
def Py_tp_new : Nat := 65

/-- What a slot's `pfunc` points to. -/
inductive SlotValue
  | doc (text : String)
  | func (f : CFunction)
  | methods (table : List PyMethodDef)
  deriving DecidableEq, Repr

/-- `PyType_Slot`; `none` stands for a NULL `pfunc`. -/
structure PyType_Slot where
  slot : Nat
  pfunc : Option SlotValue
  deriving DecidableEq, Repr

/-- `static PyType_Slot solutions_SolutionTypeSlots[]`. -/
def solutions_SolutionTypeSlots : List PyType_Slot :=
  [ { slot := Py_tp_doc, pfunc := some (.doc "Parses solution config and generate run sequence") },
    { slot := Py_tp_dealloc, pfunc := some (.func .solutions_SolutionDealloc) },
    { slot := Py_tp_methods, pfunc := some (.methods solutions_SolutionMethods) },
    { slot := Py_tp_init, pfunc := some (.func .solutions_SolutionInit) },
    { slot := Py_tp_new, pfunc := some (.func .PyType_GenericNew) },
    { slot := 0, pfunc := Option.none } ]

/-- The entries CPython reads from a method table: it walks the array until
the first entry whose `ml_name` is NULL. -/
def methodEntries : List PyMethodDef → List PyMethodDef
  | [] => []
  | m :: ms => if m.ml_name.isNone then [] else m :: methodEntries ms

/-- The slots `PyType_FromSpec` reads: it walks the array until the first
entry whose `slot` is 0. -/
def slotEntries : List PyType_Slot → List PyType_Slot
  | [] => []
  | s :: ss => if s.slot = 0 then [] else s :: slotEntries ss

/-- The value installed for a slot id, if the table sets it. -/
def slotValue (slots : List PyType_Slot) (id : Nat) : Option SlotValue :=
  match (slotEntries slots).find? (fun s => s.slot = id) with
  | some s => s.pfunc
  | Option.none => Option.none

/-- The method table installed on the type through `Py_tp_methods`. -/
def typeMethods (slots : List PyType_Slot) : List PyMethodDef :=
  match slotValue slots Py_tp_methods with
  | some (.methods table) => methodEntries table
  | _ => []

/-- A C-level invocation of a handler: the function and the `args` pointer it
receives next to `self` (`none` for NULL), plus the keyword dictionary for
handlers registered with `METH_KEYWORDS`. -/
structure HandlerCall where
  meth : CFunction
  args : Option PyObject
  kwds : Option (List (String × PyObject))

/-- How CPython calls a `PyMethodDef` entry with the given positional and
keyword arguments, by the entry's calling convention:
`METH_VARARGS` packs the positionals in a tuple, `METH_NOARGS` requires that
there are none, `METH_O` requires exactly one and passes it as is; none of
the three takes keyword arguments. -/
def callMethodDef (m : PyMethodDef) (args : List PyObject)
    (kwargs : List (String × PyObject)) : Except PyExc HandlerCall :=
  match m.ml_meth with
  | Option.none => .error .SystemError
  | some f =>
    let conv := m.ml_flags &&&
      (METH_VARARGS ||| METH_FASTCALL ||| METH_NOARGS ||| METH_O ||| METH_KEYWORDS ||| METH_METHOD)
    if conv = METH_VARARGS then
      if kwargs.isEmpty then .ok { meth := f, args := some (.tuple args), kwds := Option.none }
      else .error .TypeError
    else if conv = (METH_VARARGS ||| METH_KEYWORDS) then
      .ok { meth := f, args := some (.tuple args), kwds := some kwargs }
    else if conv = METH_NOARGS then
      if ¬ kwargs.isEmpty then .error .TypeError
      else if args.length ≠ 0 then .error .TypeError
      else .ok { meth := f, args := Option.none, kwds := Option.none }
    else if conv = METH_O then
      if ¬ kwargs.isEmpty then .error .TypeError
      else
        match args with
        | [arg] => .ok { meth := f, args := some arg, kwds := Option.none }
        | _ => .error .TypeError
    else .error .SystemError

/-- A method call `instance.name(*args, **kwargs)` on the `Solution` type,
for the operations of the type.  A name of the method table installed
through `Py_tp_methods` is called by its entry's convention; `__init__` is
the wrapper of the `Py_tp_init` slot, which hands the slot function the
positional arguments in a tuple and the keyword arguments, if any.  Every
other name (an attribute inherited from `object`, or one set up by another
slot, such as `__new__` and `__doc__`) is outside this embedding: the result
is `none`, which says nothing about what CPython does with the name. -/
def callSolutionMethod (name : String) (args : List PyObject)
    (kwargs : List (String × PyObject)) : Option (Except PyExc HandlerCall) :=
  match (typeMethods solutions_SolutionTypeSlots).find? (fun m => m.ml_name = some name) with
  | some m => some (callMethodDef m args kwargs)
  | Option.none =>
    if name = "__init__" then
      match slotValue solutions_SolutionTypeSlots Py_tp_init with
      | some (.func f) =>
        some (.ok { meth := f, args := some (.tuple args),
                    kwds := if kwargs.isEmpty then Option.none else some kwargs })
      | _ => Option.none
    else Option.none

/-! ## Part II: the expansion core

The handlers `solutions_SolutionInit`, `solutions_Solution_SetValue`,
`solutions_Solution_AddValues` and `solutions_Solution_GenerateRunSequence`
are exported from Go through `_cgo_export.h`; their code is not in the C
file.  The definitions below follow the specification's data model
(section 3), component design (section 4) and error taxonomy (section 7).
Rendering of documents to text is an external collaborator in the
specification and stays abstract: documents are kept as trees. -/

/-- Modelled from the spec: the value type behind the missing Go handlers, a
closed tagged variant of string, number and boolean (section 9, "Dynamic
typing of bound values"). -/
inductive Scalar
  | str (s : String)
  | num (n : Int)
  | bool (b : Bool)
  deriving DecidableEq, Repr

/-- Modelled from the spec: the output document model of the missing
expansion engine; a Run Configuration is a placeholder-free `Doc`, and the
values offered to `add_values` are `Doc`s of which only the scalars are
admissible. -/
inductive Doc
  | scalar (v : Scalar)
  | arr (items : List Doc)
  | obj (fields : List (String × Doc))
  deriving Repr

/-- Modelled from the spec: the Template Tree of the missing engine, "a tree
of nodes, each either a literal value, an object/array of children, or a
placeholder referencing a variable name". -/
inductive Template
  | lit (v : Scalar)
  | placeholder (name : String)
  | arr (children : List Template)
  | obj (fields : List (String × Template))
  deriving Repr

/-- Modelled from the spec: the error taxonomy of section 7, raised by the
missing Go handlers. -/
inductive Error
  | MalformedTemplate
  | InvalidVariableName
  | InvalidBinding
  | UnboundVariable (name : String)
  | ExpansionTooLarge
  deriving DecidableEq, Repr

/-- Modelled from the spec: the Variable Store of the missing Go core, a
mapping from variable name to its ordered sequence of bound values. -/
abbrev VariableStore := List (String × List Scalar)

/-- Modelled from the spec: look-up of a name's bound value sequence in the
Variable Store (section 4.2, step 2). -/
def VariableStore.lookup : VariableStore → String → Option (List Scalar)
  | [], _ => Option.none
  | (n, vs) :: rest, name => if n = name then some vs else VariableStore.lookup rest name

/-- Modelled from the spec: the open design choice of section 9 for a second
binding of the same name, which the missing core has to settle: overwrite
(last write wins) or append another candidate value. -/
inductive BindingPolicy
  | overwrite
  | append
  deriving DecidableEq, Repr

/-- Modelled from the spec: the configuration of the missing core: the
binding policy it settles on. -/
structure EngineConfig where
  policy : BindingPolicy

/-- Modelled from the spec: append one candidate value to the binding of
`name` (the appending policy of the missing store). -/
def appendValue (name : String) (v : Scalar) : VariableStore → VariableStore
  | [] => [(name, [v])]
  | (n, vs) :: rest =>
    if n = name then (n, vs ++ [v]) :: rest else (n, vs) :: appendValue name v rest

/-- Modelled from the spec: bind `name` to one more scalar in the missing
store.  Under `overwrite` the prior binding is replaced entirely by the
one-element sequence `[v]`; under `append` the value joins the sequence. -/
def bindValue (policy : BindingPolicy) (st : VariableStore) (name : String) (v : Scalar) :
    VariableStore :=
  match policy with
  | .overwrite => st.filter (fun e => e.1 ≠ name) ++ [(name, [v])]
  | .append => appendValue name v st

/-- Modelled from the spec: a variable name is malformed when it is empty,
the one malformation section 4.1 names for the missing `set_value`. -/
def validName (name : String) : Bool := name ≠ ""

/-- Modelled from the spec: the immutable Context captured by the missing
constructor. -/
structure Context where
  content : String
  user : String
  label : String
  branch : String
  deriving DecidableEq, Repr

/-- Modelled from the spec: the state of one solution instance behind the
missing Go handlers: Context, Template Tree and Variable Store. -/
structure Solution where
  context : Context
  templateTree : Template
  variableStore : VariableStore

/-- Modelled from the spec: white space between the tokens of the content,
skipped by the content parser of the missing constructor. -/
def skipSpaces : List Char → List Char
  | [] => []
  | c :: cs =>
    if c.toNat = 32 ∨ c.toNat = 9 ∨ c.toNat = 10 ∨ c.toNat = 13 then skipSpaces cs else c :: cs

/-- Modelled from the spec: the character a backslash escape stands for in a
string of the content read by the missing constructor (quote 34, backslash
92, slash 47, and the letters `n`, `t`, `r`, `b`, `f`). -/
def unescape (c : Char) : Option Char :=
  if c.toNat = 34 ∨ c.toNat = 92 ∨ c.toNat = 47 then some c
  else if c = 'n' then some (Char.ofNat 10)
  else if c = 't' then some (Char.ofNat 9)
  else if c = 'r' then some (Char.ofNat 13)
  else if c = 'b' then some (Char.ofNat 8)
  else if c = 'f' then some (Char.ofNat 12)
  else Option.none

/-- Modelled from the spec: the characters of a string of the content up to
its closing quote (34), for the content parser of the missing constructor;
`acc` holds the characters read so far, last first. -/
def parseStringBody : List Char → List Char → Option (String × List Char)
  | [], _ => Option.none
  | [c], acc => if c.toNat = 34 then some (String.mk acc.reverse, []) else Option.none
  | c :: d :: rest, acc =>
    if c.toNat = 34 then some (String.mk acc.reverse, d :: rest)
    else if c.toNat = 92 then
      match unescape d with
      | some e => parseStringBody rest (e :: acc)
      | Option.none => Option.none
    else parseStringBody (d :: rest) (c :: acc)

/-- Modelled from the spec: a decimal digit of the content read by the
missing constructor. -/
def isDigit (c : Char) : Bool := 48 ≤ c.toNat ∧ c.toNat ≤ 57

/-- Modelled from the spec: the digits of a number of the content read by
the missing constructor. -/
def parseDigits : List Char → Nat → Nat × List Char
  | [], acc => (acc, [])
  | c :: cs, acc =>
    if isDigit c then parseDigits cs (10 * acc + (c.toNat - 48)) else (acc, c :: cs)

/-- Modelled from the spec: a number of the content is an integer here; one
that goes on with a fraction or an exponent is refused by the content parser
of the missing constructor. -/
def numberEnds (rest : List Char) : Bool :=
  match rest with
  | [] => true
  | c :: _ => ¬ (c = '.' ∨ c = 'e' ∨ c = 'E')

/-- Modelled from the spec: the tree node of a string of the content read
by the missing constructor.  As in the example scenario, where the string
`$branch_target` refers to the variable `branch_target`, a string that
starts with `$` (36) is the placeholder of the name that follows, and is
malformed when that name is; any other string is a literal. -/
def stringNode (s : String) : Option Template :=
  match s.data with
  | c :: name =>
    if c.toNat = 36 then
      if validName (String.mk name) then some (.placeholder (String.mk name)) else Option.none
    else some (.lit (.str s))
  | [] => some (.lit (.str s))

mutual
/-- Modelled from the spec: the content parser of the missing constructor,
for content written as in the example scenario: a JSON value whose strings,
integers and booleans are the literals, whose arrays and objects (braces 123
and 125) are the inner nodes, and whose `$name` strings are the
placeholders.  `none` stands for content that cannot be parsed; the first
argument bounds the number of nested calls. -/
def parseValue : Nat → List Char → Option (Template × List Char)
  | 0, _ => Option.none
  | fuel + 1, cs =>
    match skipSpaces cs with
    | [] => Option.none
    | c :: rest =>
      if c.toNat = 34 then
        match parseStringBody rest [] with
        | some (s, rest2) =>
          match stringNode s with
          | some t => some (t, rest2)
          | Option.none => Option.none
        | Option.none => Option.none
      else if c = '[' then
        match skipSpaces rest with
        | d :: rest2 =>
          if d = ']' then some (.arr [], rest2)
          else
            match parseElements fuel rest with
            | some (ts, rest3) => some (.arr ts, rest3)
            | Option.none => Option.none
        | [] => Option.none
      else if c.toNat = 123 then
        match skipSpaces rest with
        | d :: rest2 =>
          if d.toNat = 125 then some (.obj [], rest2)
          else
            match parseMembers fuel rest with
            | some (fs, rest3) => some (.obj fs, rest3)
            | Option.none => Option.none
        | [] => Option.none
      else if c = 't' then
        match rest with
        | 'r' :: 'u' :: 'e' :: rest2 => some (.lit (.bool true), rest2)
        | _ => Option.none
      else if c = 'f' then
        match rest with
        | 'a' :: 'l' :: 's' :: 'e' :: rest2 => some (.lit (.bool false), rest2)
        | _ => Option.none
      else if c = '-' then
        match rest with
        | d :: _ =>
          if isDigit d then
            match parseDigits rest 0 with
            | (n, rest2) =>
              if numberEnds rest2 then some (.lit (.num (- (n : Int))), rest2) else Option.none
          else Option.none
        | [] => Option.none
      else if isDigit c then
        match parseDigits (c :: rest) 0 with
        | (n, rest2) =>
          if numberEnds rest2 then some (.lit (.num (n : Int)), rest2) else Option.none
      else Option.none
/-- Modelled from the spec: the elements of an array of the content, after
its opening bracket, for the content parser of the missing constructor. -/
def parseElements : Nat → List Char → Option (List Template × List Char)
  | 0, _ => Option.none
  | fuel + 1, cs =>
    match parseValue fuel cs with
    | Option.none => Option.none
    | some (t, rest) =>
      match skipSpaces rest with
      | d :: rest2 =>
        if d = ',' then
          match parseElements fuel rest2 with
          | some (ts, rest3) => some (t :: ts, rest3)
          | Option.none => Option.none
        else if d = ']' then some ([t], rest2)
        else Option.none
      | [] => Option.none
/-- Modelled from the spec: the members of an object of the content, after
its opening brace, in the order written, for the content parser of the
missing constructor. -/
def parseMembers : Nat → List Char → Option (List (String × Template) × List Char)
  | 0, _ => Option.none
  | fuel + 1, cs =>
    match skipSpaces cs with
    | q :: rest =>
      if q.toNat = 34 then
        match parseStringBody rest [] with
        | Option.none => Option.none
        | some (key, rest2) =>
          match skipSpaces rest2 with
          | colon :: rest3 =>
            if colon = ':' then
              match parseValue fuel rest3 with
              | Option.none => Option.none
              | some (t, rest4) =>
                match skipSpaces rest4 with
                | d :: rest5 =>
                  if d = ',' then
                    match parseMembers fuel rest5 with
                    | some (fs, rest6) => some ((key, t) :: fs, rest6)
                    | Option.none => Option.none
                  else if d.toNat = 125 then some ([(key, t)], rest5)
                  else Option.none
                | [] => Option.none
            else Option.none
          | [] => Option.none
      else Option.none
    | [] => Option.none
end

/-- Modelled from the spec: the Template Tree of a content string, for the
missing constructor: one value, white space around it allowed.  Every
nested call of the parser follows the reading of at least one character of
two, so twice the length of the content bounds the nesting. -/
def parseTemplate (content : String) : Option Template :=
  match parseValue (2 * content.length + 2) content.data with
  | some (t, rest) => if (skipSpaces rest).isEmpty then some t else Option.none
  | Option.none => Option.none

/-- Modelled from the spec: construction `new(content, user, label, branch)`
of the missing core; it fails with `MalformedTemplate` when `content` cannot
be parsed into a Template Tree, and starts with an empty store. -/
def Solution.new (content user label branch : String) : Except Error Solution :=
  match parseTemplate content with
  | Option.none => .error .MalformedTemplate
  | some t =>
    .ok { context := { content := content, user := user, label := label, branch := branch },
          templateTree := t, variableStore := [] }

/-- Modelled from the spec: `set_value(name, value)` of the missing core;
it returns the outcome and the state after the call. -/
def set_value (cfg : EngineConfig) (s : Solution) (name : String) (value : Scalar) :
    Except Error Unit × Solution :=
  if validName name then
    (.ok (), { s with variableStore := bindValue cfg.policy s.variableStore name value })
  else (.error .InvalidVariableName, s)

/-- Modelled from the spec: validation of one batch of the missing
`add_values`: every name must be well formed and every value a scalar. -/
def checkBindings : List (String × Doc) → Option (List (String × Scalar))
  | [] => some []
  | (name, .scalar v) :: rest =>
    if validName name then
      match checkBindings rest with
      | some ok => some ((name, v) :: ok)
      | Option.none => Option.none
    else Option.none
  | (_, _) :: _ => Option.none

/-- Modelled from the spec: application of a validated batch, one
`set_value` binding per pair, in the missing `add_values`. -/
def applyBindings (policy : BindingPolicy) : VariableStore → List (String × Scalar) → VariableStore
  | st, [] => st
  | st, (name, v) :: rest => applyBindings policy (bindValue policy st name v) rest

/-- Modelled from the spec: `add_values(bindings)` of the missing core: the
batch is validated as a whole and applied only when every pair is valid; it
returns the outcome and the state after the call. -/
def add_values (cfg : EngineConfig) (s : Solution) (bindings : List (String × Doc)) :
    Except Error Unit × Solution :=
  match checkBindings bindings with
  | Option.none => (.error .InvalidBinding, s)
  | some valid =>
    (.ok (), { s with variableStore := applyBindings cfg.policy s.variableStore valid })

mutual
/-- Modelled from the spec: the placeholder names of a tree of the missing
engine, in pre-order, repetitions included. -/
def Template.names : Template → List String
  | .lit _ => []
  | .placeholder n => [n]
  | .arr cs => namesList cs
  | .obj fs => namesFields fs
/-- Modelled from the spec: `Template.names` over the children of an array
node. -/
def namesList : List Template → List String
  | [] => []
  | c :: cs => c.names ++ namesList cs
/-- Modelled from the spec: `Template.names` over the fields of an object
node. -/
def namesFields : List (String × Template) → List String
  | [] => []
  | (_, c) :: fs => c.names ++ namesFields fs
end

/-- Modelled from the spec: keep the first occurrence of every name (the
"set of distinct placeholder variable names", in first-appearance order). -/
def firstOccurrences : List String → List String
  | [] => []
  | n :: ns => n :: (firstOccurrences ns).filter (fun m => m ≠ n)

/-- Modelled from the spec: section 4.2 step 1 of the missing engine, the
distinct referenced names ordered by first appearance in the tree. -/
def referencedNames (t : Template) : List String := firstOccurrences t.names

/-- Modelled from the spec: section 4.2 step 2 of the missing engine: each
referenced name is looked up; an absent one fails the expansion with
`UnboundVariable`.  The specification does not say which name the failure
carries when several are absent; the names are visited here in the order of
step 3. -/
def lookupAll (st : VariableStore) : List String → Except Error (List (String × List Scalar))
  | [] => .ok []
  | n :: ns =>
    match st.lookup n with
    | Option.none => .error (.UnboundVariable n)
    | some vs =>
      match lookupAll st ns with
      | .error e => .error e
      | .ok rest => .ok ((n, vs) :: rest)

/-- One combination of values: a value for each referenced name. -/
abbrev Assignment := List (String × Scalar)

/-- Modelled from the spec: one step of the product of the missing engine:
for each value of the current name, in binding order, all combinations of
the later names. -/
def extendWith (n : String) : List Scalar → List Assignment → List Assignment
  | [], _ => []
  | v :: vs, inner => inner.map (fun env => (n, v) :: env) ++ extendWith n vs inner

/-- Modelled from the spec: section 4.2 step 3 of the missing engine, the
cartesian product in generation order, the first name as the outer loop and
the last as the innermost. -/
def assignments : List (String × List Scalar) → List Assignment
  | [] => [[]]
  | (n, vs) :: rest => extendWith n vs (assignments rest)

/-- Modelled from the spec: the value an assignment chooses for a name. -/
def Assignment.value : Assignment → String → Option Scalar
  | [], _ => Option.none
  | (n, v) :: rest, name => if n = name then some v else Assignment.value rest name

mutual
/-- Modelled from the spec: section 4.2 step 4 of the missing engine: a copy
of the tree in which every placeholder is replaced by the value chosen for
its name, the scalar keeping its type. -/
def substitute (env : Assignment) : Template → Except Error Doc
  | .lit v => .ok (.scalar v)
  | .placeholder n =>
    match env.value n with
    | some v => .ok (.scalar v)
    | Option.none => .error (.UnboundVariable n)
  | .arr cs =>
    match substituteList env cs with
    | .ok ds => .ok (.arr ds)
    | .error e => .error e
  | .obj fs =>
    match substituteFields env fs with
    | .ok ds => .ok (.obj ds)
    | .error e => .error e
/-- Modelled from the spec: `substitute` over the children of an array
node. -/
def substituteList (env : Assignment) : List Template → Except Error (List Doc)
  | [] => .ok []
  | c :: cs =>
    match substitute env c with
    | .error e => .error e
    | .ok d =>
      match substituteList env cs with
      | .error e => .error e
      | .ok ds => .ok (d :: ds)
/-- Modelled from the spec: `substitute` over the fields of an object node,
keys kept in the tree's order. -/
def substituteFields (env : Assignment) : List (String × Template) → Except Error (List (String × Doc))
  | [] => .ok []
  | (k, c) :: fs =>
    match substitute env c with
    | .error e => .error e
    | .ok d =>
      match substituteFields env fs with
      | .error e => .error e
      | .ok ds => .ok ((k, d) :: ds)
end

/-- Modelled from the spec: one Run Configuration per assignment, in order,
in the missing engine. -/
def substituteAll (t : Template) : List Assignment → Except Error (List Doc)
  | [] => .ok []
  | env :: envs =>
    match substitute env t with
    | .error e => .error e
    | .ok d =>
      match substituteAll t envs with
      | .error e => .error e
      | .ok ds => .ok (d :: ds)

/-- Modelled from the spec: `expand(templateTree, variableStore)` of the
missing engine, the five steps of section 4.2: collect the names, look them
up, enumerate the product, substitute, return the list.  Its failure mode is
`UnboundVariable`; the resource bound that section 5 recommends (a
configurable maximum product size) is not among the five steps and no
operation of section 6 configures one, so no maximum is in force here. -/
def expand (t : Template) (st : VariableStore) : Except Error (List Doc) :=
  match lookupAll st (referencedNames t) with
  | .error e => .error e
  | .ok bound => substituteAll t (assignments bound)

/-- How a call into the extension fails: CPython refuses the call before the
handler runs, or the handler reports an error of the core. -/
inductive CallFailure
  | refused (e : PyExc)
  | failed (e : Error)
  deriving DecidableEq, Repr

/-- Modelled from the spec: the handler
`solutions_Solution_GenerateRunSequence(self, arg)` missing from the C file.
The method table registers it with `METH_O`, so it receives one object next
to the instance; the terminal operation of the specification has no
parameter, so the outcome is the expansion of the instance's tree over its
store, whatever the object.  It returns the outcome and the state after the
call, which the operation only reads. -/
def solutions_Solution_GenerateRunSequence (s : Solution) (_arg : PyObject) :
    Except Error (List Doc) × Solution :=
  (expand s.templateTree s.variableStore, s)

/-- The method call `instance.generate_run_sequence(*args, **kwargs)`: the
call goes through the method table of the C file, and the handler runs on the
one object the calling convention hands over.  It returns the outcome and
the state after the call. -/
def generate_run_sequence (s : Solution) (args : List PyObject)
    (kwargs : List (String × PyObject)) : Except CallFailure (List Doc) × Solution :=
  match callSolutionMethod "generate_run_sequence" args kwargs with
  | some (.ok call) =>
    match call.meth, call.args with
    | .solutions_Solution_GenerateRunSequence, some arg =>
      match solutions_Solution_GenerateRunSequence s arg with
      | (.ok docs, after) => (.ok docs, after)
      | (.error e, after) => (.error (.failed e), after)
    | _, _ => (.error (.refused .SystemError), s)
  | some (.error e) => (.error (.refused e), s)
  | Option.none => (.error (.refused .AttributeError), s)

/-! ### The handlers behind construction and `set_value`

The missing Go handlers receive C strings from the parsing shims of the C
file and hand text to the core.  The C strings come from the `s` format unit,
so they hold UTF-8. -/

/-- Modelled from the spec: a continuation byte of the UTF-8 text the missing
Go handlers read from a C string. -/
def isContinuation (b : Nat) : Bool := 0x80 ≤ b ∧ b < 0xC0

/-- Modelled from the spec: one code point off the front of the UTF-8 text
the missing Go handlers read from a C string; overlong forms, surrogates and
values past U+10FFFF are not text. -/
def decodeOne : List Nat → Option (Nat × List Nat)
  | [] => Option.none
  | b0 :: rest =>
    if b0 < 0x80 then some (b0, rest)
    else if b0 < 0xC0 then Option.none
    else if b0 < 0xE0 then
      match rest with
      | b1 :: rest1 =>
        if isContinuation b1 ∧ 0x80 ≤ (b0 - 0xC0) * 64 + (b1 - 0x80) then
          some ((b0 - 0xC0) * 64 + (b1 - 0x80), rest1)
        else Option.none
      | [] => Option.none
    else if b0 < 0xF0 then
      match rest with
      | b1 :: b2 :: rest2 =>
        if isContinuation b1 ∧ isContinuation b2 ∧
            0x800 ≤ (b0 - 0xE0) * 4096 + (b1 - 0x80) * 64 + (b2 - 0x80) ∧
            ¬ (0xD800 ≤ (b0 - 0xE0) * 4096 + (b1 - 0x80) * 64 + (b2 - 0x80) ∧
               (b0 - 0xE0) * 4096 + (b1 - 0x80) * 64 + (b2 - 0x80) ≤ 0xDFFF) then
          some ((b0 - 0xE0) * 4096 + (b1 - 0x80) * 64 + (b2 - 0x80), rest2)
        else Option.none
      | _ => Option.none
    else if b0 < 0xF8 then
      match rest with
      | b1 :: b2 :: b3 :: rest3 =>
        if isContinuation b1 ∧ isContinuation b2 ∧ isContinuation b3 ∧
            0x10000 ≤ (b0 - 0xF0) * 262144 + (b1 - 0x80) * 4096 + (b2 - 0x80) * 64 + (b3 - 0x80) ∧
            (b0 - 0xF0) * 262144 + (b1 - 0x80) * 4096 + (b2 - 0x80) * 64 + (b3 - 0x80) < 0x110000 then
          some ((b0 - 0xF0) * 262144 + (b1 - 0x80) * 4096 + (b2 - 0x80) * 64 + (b3 - 0x80), rest3)
        else Option.none
      | _ => Option.none
    else Option.none

/-- Modelled from the spec: the code points of the UTF-8 text the missing Go
handlers read from a C string; the first argument bounds the number of code
points, and the length of the buffer is enough. -/
def utf8DecodeAux : Nat → List Nat → Option (List Nat)
  | _, [] => some []
  | 0, _ :: _ => Option.none
  | fuel + 1, b :: bs =>
    match decodeOne (b :: bs) with
    | some (c, rest) =>
      match utf8DecodeAux fuel rest with
      | some cs => some (c :: cs)
      | Option.none => Option.none
    | Option.none => Option.none

/-- Modelled from the spec: the text of a C string, as the missing Go
handlers read it (`C.GoString`) before they call the core. -/
def GoString (p : CString) : Option String :=
  match utf8DecodeAux p.length p with
  | some cps => some (String.mk (cps.map Char.ofNat))
  | Option.none => Option.none

/-- The Python `str` object of a text. -/
def pyStr (s : String) : PyObject := .str (s.data.map Char.toNat)

/-- Modelled from the spec: the handler `solutions_SolutionInit(self, args,
kwds)` missing from the C file: it parses `args` with `PyArg_MyArgsParsing`,
the shim the C file keeps for it, reads the four C strings as text and
constructs the solution as `new(content, user, label, branch)` does. -/
def solutions_SolutionInit (args : PyObject) : Except CallFailure Solution :=
  match PyArg_MyArgsParsing args with
  | .error e => .error (.refused e)
  | .ok (content, user, label, branch) =>
    match GoString content, GoString user, GoString label, GoString branch with
    | some c, some u, some l, some b =>
      match Solution.new c u l b with
      | .ok s => .ok s
      | .error e => .error (.failed e)
    | _, _, _, _ => .error (.refused .SystemError)

/-- Modelled from the spec: the handler `solutions_Solution_SetValue(self,
args)` missing from the C file: it parses `args` with `PyArg_ParseTuple_SS`,
the shim the C file keeps for it, reads the two C strings as text and binds
the name to the string value as `set_value(name, value)` does.  It returns
the outcome and the state after the call. -/
def solutions_Solution_SetValue (cfg : EngineConfig) (s : Solution) (args : PyObject) :
    Except CallFailure Unit × Solution :=
  match PyArg_ParseTuple_SS args with
  | .error e => (.error (.refused e), s)
  | .ok (key, value) =>
    match GoString key, GoString value with
    | some k, some v =>
      match set_value cfg s k (.str v) with
      | (.ok u, after) => (.ok u, after)
      | (.error e, after) => (.error (.failed e), after)
    | _, _ => (.error (.refused .SystemError), s)

/-- The call `Solution(*args, **kwargs)`: `PyType_GenericNew`, the `Py_tp_new`
slot, allocates the instance whatever the arguments, then the initialiser of
the `Py_tp_init` slot runs on them. -/
def construct (args : List PyObject) (kwargs : List (String × PyObject)) :
    Except CallFailure Solution :=
  match callSolutionMethod "__init__" args kwargs with
  | some (.ok call) =>
    match call.meth, call.args with
    | .solutions_SolutionInit, some t => solutions_SolutionInit t
    | _, _ => .error (.refused .SystemError)
  | some (.error e) => .error (.refused e)
  | Option.none => .error (.refused .AttributeError)

/-- The method call `instance.set_value(*args, **kwargs)`: the call goes
through the method table of the C file, and the handler runs on the tuple the
calling convention hands over.  It returns the outcome and the state after
the call. -/
def call_set_value (cfg : EngineConfig) (s : Solution) (args : List PyObject)
    (kwargs : List (String × PyObject)) : Except CallFailure Unit × Solution :=
  match callSolutionMethod "set_value" args kwargs with
  | some (.ok call) =>
    match call.meth, call.args with
    | .solutions_Solution_SetValue, some t => solutions_Solution_SetValue cfg s t
    | _, _ => (.error (.refused .SystemError), s)
  | some (.error e) => (.error (.refused e), s)
  | Option.none => (.error (.refused .AttributeError), s)

/-! ## Definitions used to state the results -/

/-- Code points that the `s` format unit can hand over as a C string: not the
null code point, not a surrogate, not past U+10FFFF. -/
def cStringable (cps : List Nat) : Bool :=
  cps.all (fun c => decide (c ≠ 0) && (decide (c < 0xD800) || (decide (0xDFFF < c) && decide (c < 0x110000))))

/-- Whether `a` appears before `b` in a list of names. -/
def appearsBefore (a b : String) : List String → Bool
  | [] => false
  | n :: ns => if n = a then decide (b ∈ ns) else if n = b then false else appearsBefore a b ns

/-- The value a combination gives a referenced name: `x` for `a`, `y` for
`b`, and for any other name the first value the store binds it to. -/
def chosenValue (st : VariableStore) (a b : String) (x y : Scalar) (n : String) : Option Scalar :=
  if n = a then some x
  else if n = b then some y
  else
    match st.lookup n with
    | some (v :: _) => some v
    | _ => Option.none

/-- The assignment that gives each name of a list its value under
`chosenValue`, in the order of the list. -/
def chooseValues (st : VariableStore) (a b : String) (x y : Scalar) (l : List String) :
    Assignment :=
  l.filterMap (fun n => (chosenValue st a b x y n).map (fun v => (n, v)))

/-- The combination `(x, y)` of the values of `a` and `b`, as an assignment
of the names a solution's template references, in first-appearance order. -/
def combination (s : Solution) (a b : String) (x y : Scalar) : Assignment :=
  chooseValues s.variableStore a b x y (referencedNames s.templateTree)

/-- Each name of a list with the value sequence the store binds it to. -/
def boundValues (st : VariableStore) (l : List String) : List (String × List Scalar) :=
  l.map (fun n => (n, (st.lookup n).getD []))

/-- The content of the example scenario. -/
def exampleContent : String :=
  "\x7b\"cmd\": \"run\", \"target\": \"$branch_target\"\x7d"

/-- The example scenario, as calls into the extension:
`Solution(content, user, label, branch)` with the example content, then
`set_value("branch_target", "prod")`, then `generate_run_sequence(arg)`. -/
def exampleScenario (cfg : EngineConfig) (user label branch : String) (arg : PyObject) :
    Except CallFailure (List Doc) :=
  match construct [pyStr exampleContent, pyStr user, pyStr label, pyStr branch] [] with
  | .error e => .error e
  | .ok s0 =>
    match call_set_value cfg s0 [pyStr "branch_target", pyStr "prod"] [] with
    | (.error e, _) => .error e
    | (.ok _, s1) => (generate_run_sequence s1 [arg] []).1

/-- A template that references `b` first, then `c`, then `a`, then `b` again. -/
def matrixTemplate : Template :=
  .obj [("first", .placeholder "b"),
        ("rest", .arr [.placeholder "c", .placeholder "a", .lit (.bool true), .placeholder "b"])]

/-- A solution over `matrixTemplate` with `a` bound to 2 values, `b` to 3 and
`c` to one. -/
def matrixSolution : Solution :=
  { context := { content := "", user := "u", label := "l", branch := "b" },
    templateTree := matrixTemplate,
    variableStore := [("a", [.str "x", .str "y"]), ("b", [.num 10, .num 20, .num 30]),
                      ("c", [.bool false])] }

/-- A solution over `matrixTemplate` whose store binds `b` only. -/
def unboundSolution : Solution :=
  { context := { content := "", user := "u", label := "l", branch := "b" },
    templateTree := matrixTemplate,
    variableStore := [("b", [.num 1])] }

/-! ## Facts about the CPython side -/

theorem utf8EncodeCodePoint_isSome (c : Nat) :
    (utf8EncodeCodePoint c).isSome = (decide (c < 0xD800) || (decide (0xDFFF < c) && decide (c < 0x110000))) := by
  unfold utf8EncodeCodePoint
  split_ifs <;> simp <;> omega

theorem utf8EncodeCodePoint_zero_mem (c : Nat) (bs : List Nat)
    (h : utf8EncodeCodePoint c = some bs) : 0 ∈ bs ↔ c = 0 := by
  unfold utf8EncodeCodePoint at h
  split_ifs at h <;> simp at h <;> subst h <;> simp <;> omega

theorem strlen_eq_length (bs : List Nat) : strlen bs = bs.length ↔ 0 ∉ bs := by
  induction bs with
  | nil => simp [strlen]
  | cons b bs ih =>
    unfold strlen
    by_cases hb : b = 0
    · simp [hb]
    · simp [hb, ih, Ne.symm hb]

theorem asUTF8_zero_mem (cps bs : List Nat) (h : PyUnicode_AsUTF8AndSize cps = some bs) :
    0 ∈ bs ↔ 0 ∈ cps := by
  induction cps generalizing bs with
  | nil => simp [PyUnicode_AsUTF8AndSize] at h; subst h; simp
  | cons c cs ih =>
    unfold PyUnicode_AsUTF8AndSize at h
    split at h
    · rename_i b1 rest h1 h2
      simp at h; subst h
      simp [utf8EncodeCodePoint_zero_mem c b1 h1, ih rest h2, eq_comm]
    · simp at h

theorem asUTF8_isSome (cps : List Nat) :
    (PyUnicode_AsUTF8AndSize cps).isSome =
      cps.all (fun c => decide (c < 0xD800) || (decide (0xDFFF < c) && decide (c < 0x110000))) := by
  induction cps with
  | nil => simp [PyUnicode_AsUTF8AndSize]
  | cons c cs ih =>
    have hc := utf8EncodeCodePoint_isSome c
    unfold PyUnicode_AsUTF8AndSize
    cases h1 : utf8EncodeCodePoint c <;> cases h2 : PyUnicode_AsUTF8AndSize cs <;>
      simp [h1, h2] at hc ih ⊢ <;> simp_all

/-- The `s` unit succeeds exactly on a `str` whose UTF-8 buffer exists and
that holds no null code point; it yields that buffer. -/
theorem convertsimple_s_ok (arg : PyObject) (p : CString) :
    convertsimple arg 's' = .ok p ↔
      ∃ cps, arg = .str cps ∧ PyUnicode_AsUTF8AndSize cps = some p ∧ 0 ∉ cps := by
  unfold convertsimple
  cases arg <;> simp
  rename_i cps
  cases h : PyUnicode_AsUTF8AndSize cps with
  | none => simp
  | some sarg =>
    simp only []
    have hz := asUTF8_zero_mem cps sarg h
    have hl := strlen_eq_length sarg
    by_cases h0 : strlen sarg = sarg.length
    · simp [h0]
      have : 0 ∉ cps := by rw [← hz]; exact hl.mp h0
      intro _; exact this
    · simp [h0]
      intro _
      by_contra hc
      exact h0 (hl.mpr (by rw [hz]; exact hc))

theorem cStringable_iff (cps : List Nat) :
    cStringable cps = true ↔ (∃ p, PyUnicode_AsUTF8AndSize cps = some p) ∧ 0 ∉ cps := by
  have h := asUTF8_isSome cps
  rw [← Option.isSome_iff_exists, h]
  unfold cStringable
  simp only [List.all_eq_true, Bool.and_eq_true, decide_eq_true_eq]
  constructor
  · intro hh
    exact ⟨fun c hc => (hh c hc).2, fun h0 => (hh 0 h0).1 rfl⟩
  · rintro ⟨h1, h2⟩ c hc
    exact ⟨fun e => h2 (e ▸ hc), h1 c hc⟩


theorem PyArg_ParseTuple_tuple (items : List PyObject) (format : String) :
    PyArg_ParseTuple (.tuple items) format =
      if items.length ≠ format.data.length then .error .TypeError
      else convertItems items format.data := rfl

theorem PyArg_ParseTuple_SS_shape (args : PyObject) (r : CString × CString)
    (h : PyArg_ParseTuple_SS args = .ok r) : ∃ a b, args = .tuple [a, b] := by
  unfold PyArg_ParseTuple_SS at h
  cases args with
  | tuple items =>
    rw [PyArg_ParseTuple_tuple] at h
    have hf : "ss".data = ['s', 's'] := rfl
    rw [hf] at h
    rcases items with _ | ⟨a, _ | ⟨b, _ | ⟨c, rest⟩⟩⟩
    · simp at h
    · simp at h
    · exact ⟨a, b, rfl⟩
    · simp at h
  | _ => simp [PyArg_ParseTuple] at h

theorem PyArg_ParseTuple_SS_pair (a b : PyObject) (key value : CString) :
    PyArg_ParseTuple_SS (.tuple [a, b]) = .ok (key, value) ↔
      convertsimple a 's' = .ok key ∧ convertsimple b 's' = .ok value := by
  unfold PyArg_ParseTuple_SS
  rw [PyArg_ParseTuple_tuple]
  have hf : "ss".data = ['s', 's'] := rfl
  rw [hf]
  simp only [convertItems]
  cases h1 : convertsimple a 's' <;> cases h2 : convertsimple b 's' <;> simp

theorem PyArg_MyArgsParsing_shape (args : PyObject) (r : CString × CString × CString × CString)
    (h : PyArg_MyArgsParsing args = .ok r) : ∃ a b c d, args = .tuple [a, b, c, d] := by
  unfold PyArg_MyArgsParsing at h
  cases args with
  | tuple items =>
    rw [PyArg_ParseTuple_tuple] at h
    have hf : "ssss".data = ['s', 's', 's', 's'] := rfl
    rw [hf] at h
    rcases items with _ | ⟨a, _ | ⟨b, _ | ⟨c, _ | ⟨d, _ | ⟨e, rest⟩⟩⟩⟩⟩
    · simp at h
    · simp at h
    · simp at h
    · simp at h
    · exact ⟨a, b, c, d, rfl⟩
    · simp at h
  | _ => simp [PyArg_ParseTuple] at h

theorem PyArg_MyArgsParsing_quad (a b c d : PyObject) (content user label branch : CString) :
    PyArg_MyArgsParsing (.tuple [a, b, c, d]) = .ok (content, user, label, branch) ↔
      convertsimple a 's' = .ok content ∧ convertsimple b 's' = .ok user ∧
        convertsimple c 's' = .ok label ∧ convertsimple d 's' = .ok branch := by
  unfold PyArg_MyArgsParsing
  rw [PyArg_ParseTuple_tuple]
  have hf : "ssss".data = ['s', 's', 's', 's'] := rfl
  rw [hf]
  simp only [convertItems]
  cases h1 : convertsimple a 's' <;> cases h2 : convertsimple b 's' <;>
    cases h3 : convertsimple c 's' <;> cases h4 : convertsimple d 's' <;> simp

theorem callMethodDef_METH_O (name doc : Option String) (f : CFunction)
    (args : List PyObject) (kwargs : List (String × PyObject)) (call : HandlerCall) :
    callMethodDef { ml_name := name, ml_meth := some f, ml_flags := METH_O, ml_doc := doc }
        args kwargs = .ok call ↔
      kwargs = [] ∧ ∃ arg, args = [arg] ∧
        call = { meth := f, args := some arg, kwds := Option.none } := by
  have hconv : METH_O &&&
      (METH_VARARGS ||| METH_FASTCALL ||| METH_NOARGS ||| METH_O ||| METH_KEYWORDS ||| METH_METHOD)
        = METH_O := by decide
  have h1 : ¬ (METH_O = METH_VARARGS) := by decide
  have h2 : ¬ (METH_O = (METH_VARARGS ||| METH_KEYWORDS)) := by decide
  have h3 : ¬ (METH_O = METH_NOARGS) := by decide
  simp only [callMethodDef, hconv, h1, h2, h3, if_false, if_true]
  cases kwargs with
  | cons kw rest => simp
  | nil =>
    rcases args with _ | ⟨a, _ | ⟨b, rest⟩⟩
    · simp
    · simp [eq_comm]
    · simp

theorem callMethodDef_METH_O_arity (name doc : Option String) (f : CFunction)
    (args : List PyObject) (kwargs : List (String × PyObject)) (h : args.length ≠ 1) :
    callMethodDef { ml_name := name, ml_meth := some f, ml_flags := METH_O, ml_doc := doc }
        args kwargs = .error .TypeError := by
  have hconv : METH_O &&&
      (METH_VARARGS ||| METH_FASTCALL ||| METH_NOARGS ||| METH_O ||| METH_KEYWORDS ||| METH_METHOD)
        = METH_O := by decide
  have h1 : ¬ (METH_O = METH_VARARGS) := by decide
  have h2 : ¬ (METH_O = (METH_VARARGS ||| METH_KEYWORDS)) := by decide
  have h3 : ¬ (METH_O = METH_NOARGS) := by decide
  simp only [callMethodDef, hconv, h1, h2, h3, if_false, if_true]
  cases kwargs with
  | cons kw rest => simp
  | nil =>
    rcases args with _ | ⟨a, _ | ⟨b, rest⟩⟩
    · simp
    · simp at h
    · simp

theorem callSolutionMethod_generate_run_sequence (args : List PyObject)
    (kwargs : List (String × PyObject)) :
    callSolutionMethod "generate_run_sequence" args kwargs =
      some (callMethodDef { ml_name := some "generate_run_sequence",
                            ml_meth := some .solutions_Solution_GenerateRunSequence,
                            ml_flags := METH_O,
                            ml_doc := some "Generate list of json configs to run solution" }
        args kwargs) := rfl

theorem callSolutionMethod_add_values (args : List PyObject)
    (kwargs : List (String × PyObject)) :
    callSolutionMethod "add_values" args kwargs =
      some (callMethodDef { ml_name := some "add_values",
                            ml_meth := some .solutions_Solution_AddValues,
                            ml_flags := METH_O,
                            ml_doc := some "Set values for custom template variables using dict" }
        args kwargs) := rfl

theorem decodeOne_encode (c : Nat) (bs rest : List Nat) (h : utf8EncodeCodePoint c = some bs) :
    decodeOne (bs ++ rest) = some (c, rest) := by
  unfold utf8EncodeCodePoint at h
  split_ifs at h with h1 h2 h3 h4 h5
  · simp only [Option.some.injEq] at h; subst h
    simp only [List.singleton_append, decodeOne, h1, if_true]
  · simp only [Option.some.injEq] at h; subst h
    have e1 : ¬ (0xC0 + c / 64 < 0x80) := by omega
    have e2 : ¬ (0xC0 + c / 64 < 0xC0) := by omega
    have e3 : 0xC0 + c / 64 < 0xE0 := by omega
    have e4 : (0xC0 + c / 64 - 0xC0) * 64 + (0x80 + c % 64 - 0x80) = c := by omega
    have e5 : isContinuation (0x80 + c % 64) = true := by
      simp only [isContinuation, decide_eq_true_eq]; omega
    have e6 : 0x80 ≤ c := by omega
    simp only [List.cons_append, List.nil_append, decodeOne, e1, e2, e3, e4, e5, e6, if_true,
      if_false, true_and]
  · simp only [Option.some.injEq] at h; subst h
    have e1 : ¬ (0xE0 + c / 4096 < 0x80) := by omega
    have e2 : ¬ (0xE0 + c / 4096 < 0xC0) := by omega
    have e3 : ¬ (0xE0 + c / 4096 < 0xE0) := by omega
    have e3b : 0xE0 + c / 4096 < 0xF0 := by omega
    have e4 : (0xE0 + c / 4096 - 0xE0) * 4096 + (0x80 + c / 64 % 64 - 0x80) * 64
        + (0x80 + c % 64 - 0x80) = c := by omega
    have e5 : isContinuation (0x80 + c % 64) = true := by
      simp only [isContinuation, decide_eq_true_eq]; omega
    have e5b : isContinuation (0x80 + c / 64 % 64) = true := by
      simp only [isContinuation, decide_eq_true_eq]; omega
    have e6 : 0x800 ≤ c := by omega
    simp only [List.cons_append, List.nil_append, decodeOne, e1, e2, e3, e3b, e4, e5, e5b, e6, h3,
      if_true, if_false, true_and, not_false_eq_true, and_self]
  · simp only [Option.some.injEq] at h; subst h
    have e1 : ¬ (0xF0 + c / 262144 < 0x80) := by omega
    have e2 : ¬ (0xF0 + c / 262144 < 0xC0) := by omega
    have e3 : ¬ (0xF0 + c / 262144 < 0xE0) := by omega
    have e3b : ¬ (0xF0 + c / 262144 < 0xF0) := by omega
    have e3c : 0xF0 + c / 262144 < 0xF8 := by omega
    have e4 : (0xF0 + c / 262144 - 0xF0) * 262144 + (0x80 + c / 4096 % 64 - 0x80) * 4096
        + (0x80 + c / 64 % 64 - 0x80) * 64 + (0x80 + c % 64 - 0x80) = c := by omega
    have e5 : isContinuation (0x80 + c % 64) = true := by
      simp only [isContinuation, decide_eq_true_eq]; omega
    have e5b : isContinuation (0x80 + c / 64 % 64) = true := by
      simp only [isContinuation, decide_eq_true_eq]; omega
    have e5c : isContinuation (0x80 + c / 4096 % 64) = true := by
      simp only [isContinuation, decide_eq_true_eq]; omega
    have e6 : 0x10000 ≤ c := by omega
    simp only [List.cons_append, List.nil_append, decodeOne, e1, e2, e3, e3b, e3c, e4, e5, e5b,
      e5c, e6, h5, if_true, if_false, true_and, and_self]

theorem encode_ne_nil (c : Nat) (bs : List Nat) (h : utf8EncodeCodePoint c = some bs) :
    ∃ b bs2, bs = b :: bs2 := by
  unfold utf8EncodeCodePoint at h
  split_ifs at h <;> simp only [Option.some.injEq] at h <;> subst h <;> exact ⟨_, _, rfl⟩

theorem utf8DecodeAux_asUTF8 : ∀ (cps bs : List Nat) (fuel : Nat),
    PyUnicode_AsUTF8AndSize cps = some bs → cps.length ≤ fuel →
      utf8DecodeAux fuel bs = some cps
  | [], bs, fuel, h, _ => by
    simp only [PyUnicode_AsUTF8AndSize, Option.some.injEq] at h
    subst h
    cases fuel <;> rfl
  | c :: cs, bs, 0, _, hf => by simp at hf
  | c :: cs, bs, fuel + 1, h, hf => by
    unfold PyUnicode_AsUTF8AndSize at h
    split at h
    · rename_i b1 rest h1 h2
      simp only [Option.some.injEq] at h
      subst h
      obtain ⟨b, bs2, hb⟩ := encode_ne_nil c b1 h1
      have hd := decodeOne_encode c b1 rest h1
      have ih := utf8DecodeAux_asUTF8 cs rest fuel h2 (by simpa using hf)
      subst hb
      rw [List.cons_append] at hd ⊢
      simp only [utf8DecodeAux, hd, ih]
    · simp at h

theorem asUTF8_length (cps bs : List Nat) (h : PyUnicode_AsUTF8AndSize cps = some bs) :
    cps.length ≤ bs.length := by
  induction cps generalizing bs with
  | nil => simp
  | cons c cs ih =>
    unfold PyUnicode_AsUTF8AndSize at h
    split at h
    · rename_i b1 rest h1 h2
      simp only [Option.some.injEq] at h
      subst h
      obtain ⟨b, bs2, hb⟩ := encode_ne_nil c b1 h1
      subst hb
      have := ih rest h2
      simp only [List.length_cons, List.length_append]
      omega
    · simp at h

/-- A text without a null character goes through the `s` format unit, and
the handler reads the same text back from the C string. -/
theorem text_through_s_unit (s : String) (h : cStringable (s.data.map Char.toNat) = true) :
    ∃ p, convertsimple (pyStr s) 's' = .ok p ∧ GoString p = some s := by
  obtain ⟨⟨p, hp⟩, hz⟩ := (cStringable_iff _).mp h
  refine ⟨p, (convertsimple_s_ok _ _).mpr ⟨_, rfl, hp, hz⟩, ?_⟩
  have hd := utf8DecodeAux_asUTF8 _ p p.length hp (asUTF8_length _ p hp)
  simp only [GoString, hd, List.map_map]
  have : (Char.ofNat ∘ Char.toNat) = id := by
    funext c
    exact Char.ofNat_toNat c
  rw [this, List.map_id]

/-! ### The claims about the CPython side -/

/-- C1, as stated, fails: a tuple of four strings whose first string holds an
embedded null code point is refused with `ValueError`, and one whose first
string holds a lone surrogate is refused with `UnicodeEncodeError`. -/
theorem PyArg_MyArgsParsing_rejects_four_strings :
    PyArg_MyArgsParsing (.tuple [.str [97, 0, 98], .str [117], .str [108], .str [98]])
        = .error .ValueError ∧
      PyArg_MyArgsParsing (.tuple [.str [0xD800], .str [117], .str [108], .str [98]])
        = .error .UnicodeEncodeError := by
  decide

/-- C1 (amended): `PyArg_MyArgsParsing` (format `"ssss"`) succeeds exactly
when the argument tuple holds four strings each of which has a UTF-8
encoding and no embedded null code point; on success it yields the UTF-8
C string of the first as content, of the second as user, of the third as
label and of the fourth as branch. -/
theorem PyArg_MyArgsParsing_four_c_strings (args : PyObject) :
    (∀ content user label branch : CString,
      PyArg_MyArgsParsing args = .ok (content, user, label, branch) ↔
        ∃ s1 s2 s3 s4, args = .tuple [.str s1, .str s2, .str s3, .str s4] ∧
          (PyUnicode_AsUTF8AndSize s1 = some content ∧ 0 ∉ s1) ∧
          (PyUnicode_AsUTF8AndSize s2 = some user ∧ 0 ∉ s2) ∧
          (PyUnicode_AsUTF8AndSize s3 = some label ∧ 0 ∉ s3) ∧
          (PyUnicode_AsUTF8AndSize s4 = some branch ∧ 0 ∉ s4)) ∧
    ((∃ r, PyArg_MyArgsParsing args = .ok r) ↔
        ∃ s1 s2 s3 s4, args = .tuple [.str s1, .str s2, .str s3, .str s4] ∧
          cStringable s1 = true ∧ cStringable s2 = true ∧
          cStringable s3 = true ∧ cStringable s4 = true) := by
  have key : ∀ content user label branch : CString,
      PyArg_MyArgsParsing args = .ok (content, user, label, branch) ↔
        ∃ s1 s2 s3 s4, args = .tuple [.str s1, .str s2, .str s3, .str s4] ∧
          (PyUnicode_AsUTF8AndSize s1 = some content ∧ 0 ∉ s1) ∧
          (PyUnicode_AsUTF8AndSize s2 = some user ∧ 0 ∉ s2) ∧
          (PyUnicode_AsUTF8AndSize s3 = some label ∧ 0 ∉ s3) ∧
          (PyUnicode_AsUTF8AndSize s4 = some branch ∧ 0 ∉ s4) := by
    intro content user label branch
    constructor
    · intro h
      obtain ⟨a, b, c, d, rfl⟩ := PyArg_MyArgsParsing_shape args _ h
      rw [PyArg_MyArgsParsing_quad] at h
      obtain ⟨ha, hb, hc, hd⟩ := h
      obtain ⟨s1, rfl, e1, z1⟩ := (convertsimple_s_ok _ _).mp ha
      obtain ⟨s2, rfl, e2, z2⟩ := (convertsimple_s_ok _ _).mp hb
      obtain ⟨s3, rfl, e3, z3⟩ := (convertsimple_s_ok _ _).mp hc
      obtain ⟨s4, rfl, e4, z4⟩ := (convertsimple_s_ok _ _).mp hd
      exact ⟨s1, s2, s3, s4, rfl, ⟨e1, z1⟩, ⟨e2, z2⟩, ⟨e3, z3⟩, ⟨e4, z4⟩⟩
    · rintro ⟨s1, s2, s3, s4, rfl, ⟨e1, z1⟩, ⟨e2, z2⟩, ⟨e3, z3⟩, ⟨e4, z4⟩⟩
      rw [PyArg_MyArgsParsing_quad]
      exact ⟨(convertsimple_s_ok _ _).mpr ⟨s1, rfl, e1, z1⟩,
        (convertsimple_s_ok _ _).mpr ⟨s2, rfl, e2, z2⟩,
        (convertsimple_s_ok _ _).mpr ⟨s3, rfl, e3, z3⟩,
        (convertsimple_s_ok _ _).mpr ⟨s4, rfl, e4, z4⟩⟩
  refine ⟨key, ?_⟩
  constructor
  · rintro ⟨⟨content, user, label, branch⟩, h⟩
    obtain ⟨s1, s2, s3, s4, hargs, ⟨e1, z1⟩, ⟨e2, z2⟩, ⟨e3, z3⟩, ⟨e4, z4⟩⟩ :=
      (key content user label branch).mp h
    exact ⟨s1, s2, s3, s4, hargs, (cStringable_iff s1).mpr ⟨⟨_, e1⟩, z1⟩,
      (cStringable_iff s2).mpr ⟨⟨_, e2⟩, z2⟩, (cStringable_iff s3).mpr ⟨⟨_, e3⟩, z3⟩,
      (cStringable_iff s4).mpr ⟨⟨_, e4⟩, z4⟩⟩
  · rintro ⟨s1, s2, s3, s4, hargs, c1, c2, c3, c4⟩
    obtain ⟨⟨p1, e1⟩, z1⟩ := (cStringable_iff s1).mp c1
    obtain ⟨⟨p2, e2⟩, z2⟩ := (cStringable_iff s2).mp c2
    obtain ⟨⟨p3, e3⟩, z3⟩ := (cStringable_iff s3).mp c3
    obtain ⟨⟨p4, e4⟩, z4⟩ := (cStringable_iff s4).mp c4
    exact ⟨(p1, p2, p3, p4), (key p1 p2 p3 p4).mpr
      ⟨s1, s2, s3, s4, hargs, ⟨e1, z1⟩, ⟨e2, z2⟩, ⟨e3, z3⟩, ⟨e4, z4⟩⟩⟩

/-- C2, as stated, fails: with the string name `"x"`, a value that is the
number `1`, the boolean `True` or a float is refused with `TypeError`. -/
theorem PyArg_ParseTuple_SS_rejects_number_and_boolean :
    PyArg_ParseTuple_SS (.tuple [.str [120], .int 1]) = .error .TypeError ∧
      PyArg_ParseTuple_SS (.tuple [.str [120], .bool true]) = .error .TypeError ∧
      PyArg_ParseTuple_SS (.tuple [.str [120], .float 0x3FF8000000000000])
        = .error .TypeError := by
  decide

/-- C2 (amended): the argument parsing of `set_value` (`PyArg_ParseTuple_SS`,
format `"ss"`) accepts a call exactly when it passes two strings, the name
and the value, each with a UTF-8 encoding and no embedded null code point,
and yields their C strings; with such a name, every value that is not a
string (a number, a boolean, anything else) is refused with `TypeError`. -/
theorem PyArg_ParseTuple_SS_two_c_strings (args : PyObject) :
    (∀ key value : CString,
      PyArg_ParseTuple_SS args = .ok (key, value) ↔
        ∃ s1 s2, args = .tuple [.str s1, .str s2] ∧
          (PyUnicode_AsUTF8AndSize s1 = some key ∧ 0 ∉ s1) ∧
          (PyUnicode_AsUTF8AndSize s2 = some value ∧ 0 ∉ s2)) ∧
    (∀ (name : List Nat) (value : PyObject), args = .tuple [.str name, value] →
      cStringable name = true → (∀ s, value ≠ .str s) →
        PyArg_ParseTuple_SS args = .error .TypeError) := by
  constructor
  · intro key value
    constructor
    · intro h
      obtain ⟨a, b, rfl⟩ := PyArg_ParseTuple_SS_shape args _ h
      rw [PyArg_ParseTuple_SS_pair] at h
      obtain ⟨ha, hb⟩ := h
      obtain ⟨s1, rfl, e1, z1⟩ := (convertsimple_s_ok _ _).mp ha
      obtain ⟨s2, rfl, e2, z2⟩ := (convertsimple_s_ok _ _).mp hb
      exact ⟨s1, s2, rfl, ⟨e1, z1⟩, ⟨e2, z2⟩⟩
    · rintro ⟨s1, s2, rfl, ⟨e1, z1⟩, ⟨e2, z2⟩⟩
      rw [PyArg_ParseTuple_SS_pair]
      exact ⟨(convertsimple_s_ok _ _).mpr ⟨s1, rfl, e1, z1⟩,
        (convertsimple_s_ok _ _).mpr ⟨s2, rfl, e2, z2⟩⟩
  · rintro name value rfl hname hvalue
    obtain ⟨⟨p, e⟩, z⟩ := (cStringable_iff name).mp hname
    have h1 : convertsimple (.str name) 's' = .ok p :=
      (convertsimple_s_ok _ _).mpr ⟨name, rfl, e, z⟩
    have h2 : convertsimple value 's' = .error .TypeError := by
      unfold convertsimple
      cases value <;> simp
      rename_i s
      exact absurd rfl (hvalue s)
    unfold PyArg_ParseTuple_SS
    rw [PyArg_ParseTuple_tuple]
    have hf : "ss".data = ['s', 's'] := rfl
    rw [hf]
    simp [convertItems, h1, h2]

/-- C3, as stated, fails: the method table registers `generate_run_sequence`
with `METH_O`, and a call that passes nothing besides the instance is
refused with `TypeError`. -/
theorem generate_run_sequence_rejects_empty_call :
    (solutions_SolutionMethods.find? (fun m => m.ml_name = some "generate_run_sequence")).map
        (fun m => m.ml_flags) = some METH_O ∧
      callSolutionMethod "generate_run_sequence" [] [] = some (.error .TypeError) := by
  exact ⟨by decide, rfl⟩

/-- C3 (amended): `generate_run_sequence` is registered with the one-object
convention `METH_O`: a call is accepted exactly when it passes one
positional argument and no keyword argument besides the instance, and the
handler `solutions_Solution_GenerateRunSequence` receives that object as
is; a call with any other number of positional arguments, the empty call
included, is refused with `TypeError`. -/
theorem generate_run_sequence_takes_one_object (args : List PyObject)
    (kwargs : List (String × PyObject)) :
    (∀ call, callSolutionMethod "generate_run_sequence" args kwargs = some (.ok call) ↔
      kwargs = [] ∧ ∃ arg, args = [arg] ∧
        call = { meth := .solutions_Solution_GenerateRunSequence, args := some arg,
                 kwds := Option.none }) ∧
    (args.length ≠ 1 →
      callSolutionMethod "generate_run_sequence" args kwargs = some (.error .TypeError)) := by
  rw [callSolutionMethod_generate_run_sequence]
  simp only [Option.some.injEq]
  exact ⟨fun call => callMethodDef_METH_O _ _ _ args kwargs call,
    fun h => callMethodDef_METH_O_arity _ _ _ args kwargs h⟩

/-- C4: the `Solution` type has an initialiser slot (`Py_tp_init`, bound to
`solutions_SolutionInit`) and installs the method table
`solutions_SolutionMethods`, whose entries before the terminating sentinel
are exactly `generate_run_sequence`, `set_value` and `add_values`, in this
order, each name once and each bound to a non-null handler. -/
theorem solution_type_exposes_four_operations :
    slotValue solutions_SolutionTypeSlots Py_tp_init = some (.func .solutions_SolutionInit) ∧
    slotValue solutions_SolutionTypeSlots Py_tp_methods
      = some (.methods solutions_SolutionMethods) ∧
    (methodEntries solutions_SolutionMethods).map (fun m => m.ml_name)
      = [some "generate_run_sequence", some "set_value", some "add_values"] ∧
    ((methodEntries solutions_SolutionMethods).map (fun m => m.ml_name)).Nodup ∧
    (∀ m ∈ methodEntries solutions_SolutionMethods, m.ml_meth ≠ Option.none) ∧
    (methodEntries solutions_SolutionMethods).map (fun m => m.ml_meth)
      = [some .solutions_Solution_GenerateRunSequence, some .solutions_Solution_SetValue,
         some .solutions_Solution_AddValues] ∧
    typeMethods solutions_SolutionTypeSlots = methodEntries solutions_SolutionMethods := by
  decide

/-- C5: `add_values` is registered with the one-object convention `METH_O`:
a call is accepted exactly when it passes one positional argument and no
keyword argument, the handler `solutions_Solution_AddValues` receives that
single object as is (not wrapped in a tuple), and a call with zero or with
two or more positional arguments is refused with `TypeError`. -/
theorem add_values_takes_exactly_one_object (args : List PyObject)
    (kwargs : List (String × PyObject)) :
    (∀ call, callSolutionMethod "add_values" args kwargs = some (.ok call) ↔
      kwargs = [] ∧ ∃ arg, args = [arg] ∧
        call = { meth := .solutions_Solution_AddValues, args := some arg,
                 kwds := Option.none }) ∧
    ((args.length = 0 ∨ 2 ≤ args.length) →
      callSolutionMethod "add_values" args kwargs = some (.error .TypeError)) := by
  rw [callSolutionMethod_add_values]
  simp only [Option.some.injEq]
  exact ⟨fun call => callMethodDef_METH_O _ _ _ args kwargs call,
    fun h => callMethodDef_METH_O_arity _ _ _ args kwargs (by omega)⟩

/-! ## Facts about the expansion core -/

theorem mem_firstOccurrences (l : List String) (n : String) :
    n ∈ firstOccurrences l ↔ n ∈ l := by
  induction l with
  | nil => simp [firstOccurrences]
  | cons m ms ih =>
    simp only [firstOccurrences, List.mem_cons, List.mem_filter, ih, decide_eq_true_eq]
    by_cases h : n = m <;> simp [h]

theorem firstOccurrences_nodup (l : List String) : (firstOccurrences l).Nodup := by
  induction l with
  | nil => simp [firstOccurrences]
  | cons m ms ih =>
    simp only [firstOccurrences, List.nodup_cons, List.mem_filter, decide_eq_true_eq]
    exact ⟨fun h => h.2 rfl, ih.filter _⟩

mutual
theorem substitute_ok (env : Assignment) :
    ∀ t : Template, (∀ n ∈ t.names, (env.value n).isSome = true) →
      ∃ d, substitute env t = .ok d
  | .lit v, _ => ⟨.scalar v, by simp [substitute]⟩
  | .placeholder n, h => by
    have hn := h n (by simp [Template.names])
    obtain ⟨v, hv⟩ := Option.isSome_iff_exists.mp hn
    exact ⟨.scalar v, by simp [substitute, hv]⟩
  | .arr cs, h => by
    obtain ⟨ds, hds⟩ := substituteList_ok env cs (by simpa [Template.names] using h)
    exact ⟨.arr ds, by simp [substitute, hds]⟩
  | .obj fs, h => by
    obtain ⟨ds, hds⟩ := substituteFields_ok env fs (by simpa [Template.names] using h)
    exact ⟨.obj ds, by simp [substitute, hds]⟩
theorem substituteList_ok (env : Assignment) :
    ∀ cs : List Template, (∀ n ∈ namesList cs, (env.value n).isSome = true) →
      ∃ ds, substituteList env cs = .ok ds
  | [], _ => ⟨[], by simp [substituteList]⟩
  | c :: cs, h => by
    obtain ⟨d, hd⟩ := substitute_ok env c (fun n hn => h n (by simp [namesList, hn]))
    obtain ⟨ds, hds⟩ := substituteList_ok env cs (fun n hn => h n (by simp [namesList, hn]))
    exact ⟨d :: ds, by simp [substituteList, hd, hds]⟩
theorem substituteFields_ok (env : Assignment) :
    ∀ fs : List (String × Template), (∀ n ∈ namesFields fs, (env.value n).isSome = true) →
      ∃ ds, substituteFields env fs = .ok ds
  | [], _ => ⟨[], by simp [substituteFields]⟩
  | (k, c) :: fs, h => by
    obtain ⟨d, hd⟩ := substitute_ok env c (fun n hn => h n (by simp [namesFields, hn]))
    obtain ⟨ds, hds⟩ := substituteFields_ok env fs (fun n hn => h n (by simp [namesFields, hn]))
    exact ⟨(k, d) :: ds, by simp [substituteFields, hd, hds]⟩
end

mutual
theorem substitute_agree (e1 e2 : Assignment) :
    ∀ (t : Template) (d : Doc), substitute e1 t = .ok d → substitute e2 t = .ok d →
      ∀ n ∈ t.names, e1.value n = e2.value n
  | .lit _, _, _, _ => by simp [Template.names]
  | .placeholder m, d, h1, h2 => by
    intro n hn
    simp only [Template.names, List.mem_singleton] at hn
    subst hn
    simp only [substitute] at h1 h2
    cases hv1 : e1.value n with
    | none => simp [hv1] at h1
    | some v1 =>
      cases hv2 : e2.value n with
      | none => simp [hv2] at h2
      | some v2 =>
        simp only [hv1, Except.ok.injEq] at h1
        simp only [hv2, Except.ok.injEq] at h2
        rw [← h2] at h1
        simp only [Doc.scalar.injEq] at h1
        rw [h1]
  | .arr cs, d, h1, h2 => by
    simp only [substitute] at h1 h2
    cases hs1 : substituteList e1 cs with
    | error e => simp [hs1] at h1
    | ok ds1 =>
      cases hs2 : substituteList e2 cs with
      | error e => simp [hs2] at h2
      | ok ds2 =>
        simp only [hs1, Except.ok.injEq] at h1
        simp only [hs2, Except.ok.injEq] at h2
        rw [← h2] at h1
        simp only [Doc.arr.injEq] at h1
        subst h1
        simpa [Template.names] using substituteList_agree e1 e2 cs ds1 hs1 hs2
  | .obj fs, d, h1, h2 => by
    simp only [substitute] at h1 h2
    cases hs1 : substituteFields e1 fs with
    | error e => simp [hs1] at h1
    | ok ds1 =>
      cases hs2 : substituteFields e2 fs with
      | error e => simp [hs2] at h2
      | ok ds2 =>
        simp only [hs1, Except.ok.injEq] at h1
        simp only [hs2, Except.ok.injEq] at h2
        rw [← h2] at h1
        simp only [Doc.obj.injEq] at h1
        subst h1
        simpa [Template.names] using substituteFields_agree e1 e2 fs ds1 hs1 hs2
theorem substituteList_agree (e1 e2 : Assignment) :
    ∀ (cs : List Template) (ds : List Doc), substituteList e1 cs = .ok ds →
      substituteList e2 cs = .ok ds → ∀ n ∈ namesList cs, e1.value n = e2.value n
  | [], _, _, _ => by simp [namesList]
  | c :: cs, ds, h1, h2 => by
    simp only [substituteList] at h1 h2
    cases hc1 : substitute e1 c with
    | error e => simp [hc1] at h1
    | ok d1 =>
      cases hc2 : substitute e2 c with
      | error e => simp [hc2] at h2
      | ok d2 =>
        cases hs1 : substituteList e1 cs with
        | error e => simp [hc1, hs1] at h1
        | ok ds1 =>
          cases hs2 : substituteList e2 cs with
          | error e => simp [hc2, hs2] at h2
          | ok ds2 =>
            simp only [hc1, hs1, Except.ok.injEq] at h1
            simp only [hc2, hs2, Except.ok.injEq] at h2
            rw [← h2] at h1
            simp only [List.cons.injEq] at h1
            obtain ⟨hd, hds⟩ := h1
            subst hd; subst hds
            intro n hn
            simp only [namesList, List.mem_append] at hn
            rcases hn with hn | hn
            · exact substitute_agree e1 e2 c d1 hc1 hc2 n hn
            · exact substituteList_agree e1 e2 cs ds1 hs1 hs2 n hn
theorem substituteFields_agree (e1 e2 : Assignment) :
    ∀ (fs : List (String × Template)) (ds : List (String × Doc)),
      substituteFields e1 fs = .ok ds → substituteFields e2 fs = .ok ds →
        ∀ n ∈ namesFields fs, e1.value n = e2.value n
  | [], _, _, _ => by simp [namesFields]
  | (k, c) :: fs, ds, h1, h2 => by
    simp only [substituteFields] at h1 h2
    cases hc1 : substitute e1 c with
    | error e => simp [hc1] at h1
    | ok d1 =>
      cases hc2 : substitute e2 c with
      | error e => simp [hc2] at h2
      | ok d2 =>
        cases hs1 : substituteFields e1 fs with
        | error e => simp [hc1, hs1] at h1
        | ok ds1 =>
          cases hs2 : substituteFields e2 fs with
          | error e => simp [hc2, hs2] at h2
          | ok ds2 =>
            simp only [hc1, hs1, Except.ok.injEq] at h1
            simp only [hc2, hs2, Except.ok.injEq] at h2
            rw [← h2] at h1
            simp only [List.cons.injEq, Prod.mk.injEq, true_and] at h1
            obtain ⟨hd, hds⟩ := h1
            subst hd; subst hds
            intro n hn
            simp only [namesFields, List.mem_append] at hn
            rcases hn with hn | hn
            · exact substitute_agree e1 e2 c d1 hc1 hc2 n hn
            · exact substituteFields_agree e1 e2 fs ds1 hs1 hs2 n hn
end

theorem lookupAll_firstUnbound (st : VariableStore) :
    ∀ (ns : List String) (n : String),
      ns.find? (fun m => (st.lookup m).isNone) = some n →
        lookupAll st ns = .error (.UnboundVariable n)
  | [], n, h => by simp at h
  | m :: ms, n, h => by
    simp only [List.find?_cons] at h
    cases hm : st.lookup m with
    | none =>
      simp only [hm, Option.isNone_none, Option.some.injEq] at h
      subst h
      simp [lookupAll, hm]
    | some vs =>
      simp only [hm, Option.isNone_some] at h
      simp [lookupAll, hm, lookupAll_firstUnbound st ms n h]

theorem lookupAll_bound (st : VariableStore) :
    ∀ ns : List String, (∀ n ∈ ns, ∃ vs, st.lookup n = some vs) →
      lookupAll st ns = .ok (boundValues st ns)
  | [], _ => by simp [lookupAll, boundValues]
  | m :: ms, h => by
    obtain ⟨vs, hvs⟩ := h m (by simp)
    have ih := lookupAll_bound st ms (fun n hn => h n (by simp [hn]))
    simp [lookupAll, hvs, ih, boundValues]

/-- The value an assignment built name by name gives a name: the choice made
for it, when the name is in the list. -/
theorem value_filterMap (c : String → Option Scalar) (n : String) :
    ∀ l : List String,
      Assignment.value (l.filterMap (fun m => (c m).map (fun v => (m, v)))) n =
        if n ∈ l then c n else Option.none
  | [] => by simp [Assignment.value]
  | m :: ms => by
    have ih := value_filterMap c n ms
    cases hc : c m with
    | none =>
      simp only [List.filterMap_cons, hc, Option.map_none', ih, List.mem_cons]
      by_cases hnm : n = m
      · subst hnm; simp [hc]
      · simp [hnm]
    | some v =>
      simp only [List.filterMap_cons, hc, Option.map_some', Assignment.value, ih, List.mem_cons]
      by_cases hnm : m = n
      · subst hnm; simp [hc]
      · simp [hnm, Ne.symm hnm]

theorem assignments_single_cons (n : String) (v : Scalar) (rest : List (String × List Scalar)) :
    assignments ((n, [v]) :: rest) = (assignments rest).map (fun env => (n, v) :: env) := by
  simp [assignments, extendWith]

theorem value_chooseValues (st : VariableStore) (a b : String) (x y : Scalar)
    (l : List String) (n : String) :
    Assignment.value (chooseValues st a b x y l) n =
      if n ∈ l then chosenValue st a b x y n else Option.none :=
  value_filterMap (chosenValue st a b x y) n l

theorem chooseValues_append (st : VariableStore) (a b : String) (x y : Scalar)
    (l1 l2 : List String) :
    chooseValues st a b x y (l1 ++ l2) = chooseValues st a b x y l1 ++ chooseValues st a b x y l2 := by
  simp [chooseValues, List.filterMap_append]

theorem chooseValues_cons_fst (st : VariableStore) (a b : String) (x y : Scalar)
    (l : List String) :
    chooseValues st a b x y (a :: l) = (a, x) :: chooseValues st a b x y l := by
  simp [chooseValues, chosenValue]

theorem chooseValues_cons_snd (st : VariableStore) (a b : String) (x y : Scalar)
    (l : List String) (hab : a ≠ b) :
    chooseValues st a b x y (b :: l) = (b, y) :: chooseValues st a b x y l := by
  simp [chooseValues, chosenValue, Ne.symm hab]

/-- On names other than `a` and `b` the chosen values come from the store
alone. -/
theorem chooseValues_congr (st : VariableStore) (a b a2 b2 : String) (x y x2 y2 : Scalar) :
    ∀ l : List String, (∀ n ∈ l, n ≠ a ∧ n ≠ b ∧ n ≠ a2 ∧ n ≠ b2) →
      chooseValues st a b x y l = chooseValues st a2 b2 x2 y2 l
  | [], _ => rfl
  | m :: ms, h => by
    obtain ⟨h1, h2, h3, h4⟩ := h m (by simp)
    have ih := chooseValues_congr st a b a2 b2 x y x2 y2 ms (fun n hn => h n (by simp [hn]))
    have hm : chosenValue st a b x y m = chosenValue st a2 b2 x2 y2 m := by
      simp [chosenValue, h1, h2, h3, h4]
    simp only [chooseValues] at ih ⊢
    simp only [List.filterMap_cons, hm, ih]

theorem assignments_leading (st : VariableStore) (a b : String) (x y : Scalar)
    (rest : List String) :
    ∀ pre : List String, (∀ n ∈ pre, n ≠ a ∧ n ≠ b ∧ ∃ v, st.lookup n = some [v]) →
      assignments (boundValues st (pre ++ rest)) =
        (assignments (boundValues st rest)).map (fun env => chooseValues st a b x y pre ++ env)
  | [], _ => by simp [chooseValues]
  | m :: ms, h => by
    obtain ⟨h1, h2, v, hv⟩ := h m (by simp)
    have ih := assignments_leading st a b x y rest ms (fun n hn => h n (by simp [hn]))
    have hb : boundValues st (m :: ms ++ rest) = (m, [v]) :: boundValues st (ms ++ rest) := by
      simp [boundValues, hv]
    have hc : chooseValues st a b x y (m :: ms) = (m, v) :: chooseValues st a b x y ms := by
      simp [chooseValues, chosenValue, h1, h2, hv]
    rw [hb, assignments_single_cons, ih, hc]
    simp [List.map_map, Function.comp]

theorem assignments_singles (st : VariableStore) (a b : String) (x y : Scalar)
    (l : List String) (h : ∀ n ∈ l, n ≠ a ∧ n ≠ b ∧ ∃ v, st.lookup n = some [v]) :
    assignments (boundValues st l) = [chooseValues st a b x y l] := by
  have := assignments_leading st a b x y [] l h
  simpa [boundValues, assignments] using this

/-- The product over a list of names in which only `p` and, after it, `q`
carry several values. -/
theorem assignments_two (st : VariableStore) (p q : String) (ps qs : List Scalar) (x y : Scalar)
    (pre mid post : List String)
    (hp : st.lookup p = some ps) (hq : st.lookup q = some qs)
    (hpre : ∀ n ∈ pre, n ≠ p ∧ n ≠ q ∧ ∃ v, st.lookup n = some [v])
    (hmid : ∀ n ∈ mid, n ≠ p ∧ n ≠ q ∧ ∃ v, st.lookup n = some [v])
    (hpost : ∀ n ∈ post, n ≠ p ∧ n ≠ q ∧ ∃ v, st.lookup n = some [v]) :
    assignments (boundValues st (pre ++ p :: (mid ++ q :: post))) =
      (extendWith p ps
        ((extendWith q qs [chooseValues st p q x y post]).map
          (fun env => chooseValues st p q x y mid ++ env))).map
        (fun env => chooseValues st p q x y pre ++ env) := by
  rw [assignments_leading st p q x y _ pre hpre]
  have h1 : boundValues st (p :: (mid ++ q :: post))
      = (p, ps) :: boundValues st (mid ++ q :: post) := by
    simp [boundValues, hp]
  have h2 : boundValues st (q :: post) = (q, qs) :: boundValues st post := by
    simp [boundValues, hq]
  rw [h1]
  simp only [assignments]
  rw [assignments_leading st p q x y _ mid hmid, h2]
  simp only [assignments]
  rw [assignments_singles st p q x y post hpost]

theorem split_two (a b : String) (hab : a ≠ b) :
    ∀ l : List String, a ∈ l → b ∈ l →
      (appearsBefore a b l = true ∧ ∃ pre mid post, l = pre ++ a :: (mid ++ b :: post)) ∨
      (appearsBefore a b l = false ∧ ∃ pre mid post, l = pre ++ b :: (mid ++ a :: post))
  | [], ha, _ => by simp at ha
  | n :: ns, ha, hb => by
    by_cases hna : n = a
    · subst hna
      have hbn : b ∈ ns := by
        simp only [List.mem_cons] at hb
        rcases hb with h | h
        · exact absurd h.symm hab
        · exact h
      obtain ⟨mid, post, hsplit⟩ := List.append_of_mem hbn
      exact Or.inl ⟨by simp [appearsBefore, hbn], [], mid, post, by simp [hsplit]⟩
    · by_cases hnb : n = b
      · subst hnb
        have han : a ∈ ns := by
          simp only [List.mem_cons] at ha
          rcases ha with h | h
          · exact absurd h hab
          · exact h
        obtain ⟨mid, post, hsplit⟩ := List.append_of_mem han
        exact Or.inr ⟨by simp [appearsBefore, hna], [], mid, post, by simp [hsplit]⟩
      · have han : a ∈ ns := by
          simp only [List.mem_cons] at ha
          rcases ha with h | h
          · exact absurd h.symm hna
          · exact h
        have hbn : b ∈ ns := by
          simp only [List.mem_cons] at hb
          rcases hb with h | h
          · exact absurd h.symm hnb
          · exact h
        rcases split_two a b hab ns han hbn with ⟨h, pre, mid, post, hs⟩ | ⟨h, pre, mid, post, hs⟩
        · exact Or.inl ⟨by simp [appearsBefore, hna, hnb, h], n :: pre, mid, post, by simp [hs]⟩
        · exact Or.inr ⟨by simp [appearsBefore, hna, hnb, h], n :: pre, mid, post, by simp [hs]⟩

/-- A call with one positional object reaches the handler: the outcome is
that of the expansion, the state is untouched. -/
theorem generate_run_sequence_one_object (s : Solution) (arg : PyObject) :
    generate_run_sequence s [arg] [] =
      (match expand s.templateTree s.variableStore with
        | .ok docs => .ok docs
        | .error e => .error (.failed e), s) := by
  have h : callSolutionMethod "generate_run_sequence" [arg] [] =
      some (.ok { meth := .solutions_Solution_GenerateRunSequence, args := some arg,
                  kwds := Option.none }) := rfl
  simp only [generate_run_sequence, h, solutions_Solution_GenerateRunSequence]
  cases expand s.templateTree s.variableStore <;> rfl

theorem nodup_two_avoid (pre mid post : List String) (a b : String)
    (h : (pre ++ a :: (mid ++ b :: post)).Nodup) :
    (∀ n ∈ pre, n ≠ a ∧ n ≠ b) ∧ (∀ n ∈ mid, n ≠ a ∧ n ≠ b) ∧ (∀ n ∈ post, n ≠ a ∧ n ≠ b) := by
  have hsub : (a :: (mid ++ b :: post)).Nodup := (List.nodup_append.mp h).2.1
  have hdis := (List.nodup_append.mp h).2.2
  have ha : a ∉ mid ++ b :: post := (List.nodup_cons.mp hsub).1
  have hsub2 : (b :: post).Nodup := (List.nodup_append.mp (List.nodup_cons.mp hsub).2).2.1
  have hdis2 := (List.nodup_append.mp (List.nodup_cons.mp hsub).2).2.2
  have hb : b ∉ post := (List.nodup_cons.mp hsub2).1
  refine ⟨fun n hn => ⟨?_, ?_⟩, fun n hn => ⟨?_, ?_⟩, fun n hn => ⟨?_, ?_⟩⟩
  · rintro rfl; exact hdis hn (by simp)
  · rintro rfl; exact hdis hn (by simp)
  · rintro rfl; exact ha (by simp [hn])
  · rintro rfl; exact hdis2 hn (by simp)
  · rintro rfl; exact ha (by simp [hn])
  · rintro rfl; exact hb hn

/-- When only `a` and `b` carry several values, the product over the
referenced names lists the combinations with the earlier of the two names as
the outer loop. -/
theorem assignments_two_by_three (s : Solution) (a b : String) (a1 a2 b1 b2 b3 : Scalar)
    (hab : a ≠ b)
    (ha : a ∈ s.templateTree.names) (hb : b ∈ s.templateTree.names)
    (hva : s.variableStore.lookup a = some [a1, a2])
    (hvb : s.variableStore.lookup b = some [b1, b2, b3])
    (hothers : ∀ n ∈ s.templateTree.names, n ≠ a → n ≠ b →
      ∃ v, s.variableStore.lookup n = some [v]) :
    assignments (boundValues s.variableStore (referencedNames s.templateTree)) =
      if appearsBefore a b (referencedNames s.templateTree) = true then
        [combination s a b a1 b1, combination s a b a1 b2, combination s a b a1 b3,
         combination s a b a2 b1, combination s a b a2 b2, combination s a b a2 b3]
      else
        [combination s a b a1 b1, combination s a b a2 b1, combination s a b a1 b2,
         combination s a b a2 b2, combination s a b a1 b3, combination s a b a2 b3] := by
  have hmem := mem_firstOccurrences s.templateTree.names
  have hnd := firstOccurrences_nodup s.templateTree.names
  have har : a ∈ referencedNames s.templateTree := (hmem a).mpr ha
  have hbr : b ∈ referencedNames s.templateTree := (hmem b).mpr hb
  have hsingle : ∀ l : List String, (∀ n ∈ l, n ∈ referencedNames s.templateTree) →
      (∀ n ∈ l, n ≠ a ∧ n ≠ b) →
      ∀ n ∈ l, n ≠ a ∧ n ≠ b ∧ ∃ v, s.variableStore.lookup n = some [v] :=
    fun l hl hav n hn =>
      ⟨(hav n hn).1, (hav n hn).2, hothers n ((hmem n).mp (hl n hn)) (hav n hn).1 (hav n hn).2⟩
  have hsingle2 : ∀ l : List String, (∀ n ∈ l, n ∈ referencedNames s.templateTree) →
      (∀ n ∈ l, n ≠ b ∧ n ≠ a) →
      ∀ n ∈ l, n ≠ b ∧ n ≠ a ∧ ∃ v, s.variableStore.lookup n = some [v] :=
    fun l hl hav n hn =>
      ⟨(hav n hn).1, (hav n hn).2, hothers n ((hmem n).mp (hl n hn)) (hav n hn).2 (hav n hn).1⟩
  rcases split_two a b hab _ har hbr with ⟨hord, pre, mid, post, hs⟩ | ⟨hord, pre, mid, post, hs⟩
  · have hnd2 : (pre ++ a :: (mid ++ b :: post)).Nodup := by
      have := hnd
      unfold referencedNames at hs
      rwa [hs] at this
    obtain ⟨hpre, hmid, hpost⟩ := nodup_two_avoid pre mid post a b hnd2
    have hc : ∀ x y, combination s a b x y =
        chooseValues s.variableStore a b a1 b1 pre ++
          (a, x) :: (chooseValues s.variableStore a b a1 b1 mid ++
            (b, y) :: chooseValues s.variableStore a b a1 b1 post) := by
      intro x y
      unfold combination
      rw [hs, chooseValues_append, chooseValues_cons_fst, chooseValues_append,
        chooseValues_cons_snd _ _ _ _ _ _ hab,
        chooseValues_congr _ a b a b x y a1 b1 pre
          (fun n hn => ⟨(hpre n hn).1, (hpre n hn).2, (hpre n hn).1, (hpre n hn).2⟩),
        chooseValues_congr _ a b a b x y a1 b1 mid
          (fun n hn => ⟨(hmid n hn).1, (hmid n hn).2, (hmid n hn).1, (hmid n hn).2⟩),
        chooseValues_congr _ a b a b x y a1 b1 post
          (fun n hn => ⟨(hpost n hn).1, (hpost n hn).2, (hpost n hn).1, (hpost n hn).2⟩)]
    rw [if_pos hord, hs,
      assignments_two s.variableStore a b [a1, a2] [b1, b2, b3] a1 b1 pre mid post hva hvb
        (hsingle pre (fun n hn => by rw [hs]; simp [hn]) hpre)
        (hsingle mid (fun n hn => by rw [hs]; simp [hn]) hmid)
        (hsingle post (fun n hn => by rw [hs]; simp [hn]) hpost)]
    simp only [hc, extendWith, List.map_cons, List.map_nil, List.cons_append, List.nil_append,
      List.append_nil]
  · have hnd2 : (pre ++ b :: (mid ++ a :: post)).Nodup := by
      have := hnd
      unfold referencedNames at hs
      rwa [hs] at this
    obtain ⟨hpre, hmid, hpost⟩ := nodup_two_avoid pre mid post b a hnd2
    have hc : ∀ x y, combination s a b x y =
        chooseValues s.variableStore b a b1 a1 pre ++
          (b, y) :: (chooseValues s.variableStore b a b1 a1 mid ++
            (a, x) :: chooseValues s.variableStore b a b1 a1 post) := by
      intro x y
      unfold combination
      rw [hs, chooseValues_append, chooseValues_cons_snd _ _ _ _ _ _ hab, chooseValues_append,
        chooseValues_cons_fst,
        chooseValues_congr _ a b b a x y b1 a1 pre
          (fun n hn => ⟨(hpre n hn).2, (hpre n hn).1, (hpre n hn).1, (hpre n hn).2⟩),
        chooseValues_congr _ a b b a x y b1 a1 mid
          (fun n hn => ⟨(hmid n hn).2, (hmid n hn).1, (hmid n hn).1, (hmid n hn).2⟩),
        chooseValues_congr _ a b b a x y b1 a1 post
          (fun n hn => ⟨(hpost n hn).2, (hpost n hn).1, (hpost n hn).1, (hpost n hn).2⟩)]
    have hord2 : ¬ (appearsBefore a b (referencedNames s.templateTree) = true) := by
      rw [hord]; simp
    rw [if_neg hord2, hs,
      assignments_two s.variableStore b a [b1, b2, b3] [a1, a2] b1 a1 pre mid post hvb hva
        (hsingle2 pre (fun n hn => by rw [hs]; simp [hn]) hpre)
        (hsingle2 mid (fun n hn => by rw [hs]; simp [hn]) hmid)
        (hsingle2 post (fun n hn => by rw [hs]; simp [hn]) hpost)]
    simp only [hc, extendWith, List.map_cons, List.map_nil, List.cons_append, List.nil_append,
      List.append_nil]

theorem combination_value (s : Solution) (a b : String) (x y : Scalar) (n : String)
    (hn : n ∈ s.templateTree.names) :
    Assignment.value (combination s a b x y) n = chosenValue s.variableStore a b x y n := by
  unfold combination
  have hr : n ∈ referencedNames s.templateTree := (mem_firstOccurrences _ n).mpr hn
  rw [value_chooseValues, if_pos hr]

theorem combination_substitute_ok (s : Solution) (a b : String) (x y : Scalar)
    (hothers : ∀ n ∈ s.templateTree.names, n ≠ a → n ≠ b →
      ∃ v, s.variableStore.lookup n = some [v]) :
    ∃ d, substitute (combination s a b x y) s.templateTree = .ok d := by
  apply substitute_ok
  intro n hn
  rw [combination_value s a b x y n hn]
  unfold chosenValue
  by_cases h1 : n = a
  · simp [h1]
  · by_cases h2 : n = b
    · subst h2
      simp [h1]
    · obtain ⟨v, hv⟩ := hothers n hn h1 h2
      simp [h1, h2, hv]

/-- Two combinations that give the same document choose the same values
for `a` and for `b`. -/
theorem combination_injective (s : Solution) (a b : String) (hab : a ≠ b)
    (ha : a ∈ s.templateTree.names) (hb : b ∈ s.templateTree.names) (x y x2 y2 : Scalar)
    (d d2 : Doc) (h1 : substitute (combination s a b x y) s.templateTree = .ok d)
    (h2 : substitute (combination s a b x2 y2) s.templateTree = .ok d2) (hd : d = d2) :
    x = x2 ∧ y = y2 := by
  subst hd
  have hva := substitute_agree _ _ s.templateTree d h1 h2 a ha
  have hvb := substitute_agree _ _ s.templateTree d h1 h2 b hb
  rw [combination_value s a b x y a ha, combination_value s a b x2 y2 a ha] at hva
  rw [combination_value s a b x y b hb, combination_value s a b x2 y2 b hb] at hvb
  simp only [chosenValue, if_true, Option.some.injEq] at hva
  simp only [chosenValue, Ne.symm hab, if_false, if_true, Option.some.injEq] at hvb
  exact ⟨hva, hvb⟩

/-! ### The claims about the expansion core -/

/-- C6: a solution constructed with content
`{"cmd": "run", "target": "$branch_target"}` (and any user, label and branch
the constructor accepts), after `set_value("branch_target", "prod")`, returns
from `generate_run_sequence` the one-element sequence
`[{"cmd": "run", "target": "prod"}]`, under either binding policy and
whatever object the call hands to the handler. -/
theorem example_scenario_run_sequence (cfg : EngineConfig) (user label branch : String)
    (arg : PyObject)
    (huser : cStringable (user.data.map Char.toNat) = true)
    (hlabel : cStringable (label.data.map Char.toNat) = true)
    (hbranch : cStringable (branch.data.map Char.toNat) = true) :
    exampleScenario cfg user label branch arg =
      .ok [.obj [("cmd", .scalar (.str "run")), ("target", .scalar (.str "prod"))]] := by
  obtain ⟨pc, hpc, hgc⟩ := text_through_s_unit exampleContent (by decide)
  obtain ⟨pu, hpu, hgu⟩ := text_through_s_unit user huser
  obtain ⟨pl, hpl, hgl⟩ := text_through_s_unit label hlabel
  obtain ⟨pb, hpb, hgb⟩ := text_through_s_unit branch hbranch
  have hinit : callSolutionMethod "__init__"
      [pyStr exampleContent, pyStr user, pyStr label, pyStr branch] [] =
      some (.ok { meth := .solutions_SolutionInit,
                  args := some (.tuple [pyStr exampleContent, pyStr user, pyStr label,
                    pyStr branch]),
                  kwds := Option.none }) := rfl
  have hargs : PyArg_MyArgsParsing
      (.tuple [pyStr exampleContent, pyStr user, pyStr label, pyStr branch])
        = .ok (pc, pu, pl, pb) :=
    (PyArg_MyArgsParsing_quad _ _ _ _ _ _ _ _).mpr ⟨hpc, hpu, hpl, hpb⟩
  have hparse : parseTemplate exampleContent =
      some (.obj [("cmd", .lit (.str "run")), ("target", .placeholder "branch_target")]) := rfl
  have hconstruct : construct [pyStr exampleContent, pyStr user, pyStr label, pyStr branch] [] =
      .ok { context := { content := exampleContent, user := user, label := label,
                         branch := branch },
            templateTree :=
              .obj [("cmd", .lit (.str "run")), ("target", .placeholder "branch_target")],
            variableStore := [] } := by
    simp only [construct, hinit, solutions_SolutionInit, hargs, hgc, hgu, hgl, hgb, Solution.new,
      hparse]
  have hset : ∀ s0 : Solution, call_set_value cfg s0 [pyStr "branch_target", pyStr "prod"] [] =
      (.ok (), { s0 with
        variableStore := bindValue cfg.policy s0.variableStore "branch_target" (.str "prod") }) := by
    intro s0
    have hcall : callSolutionMethod "set_value" [pyStr "branch_target", pyStr "prod"] [] =
        some (.ok { meth := .solutions_Solution_SetValue,
                    args := some (.tuple [pyStr "branch_target", pyStr "prod"]),
                    kwds := Option.none }) := rfl
    have hss : PyArg_ParseTuple_SS (.tuple [pyStr "branch_target", pyStr "prod"]) =
        .ok ([98, 114, 97, 110, 99, 104, 95, 116, 97, 114, 103, 101, 116],
             [112, 114, 111, 100]) := by decide
    have hk : GoString [98, 114, 97, 110, 99, 104, 95, 116, 97, 114, 103, 101, 116]
        = some "branch_target" := by decide
    have hv : GoString [112, 114, 111, 100] = some "prod" := by decide
    have hvalid : validName "branch_target" = true := by decide
    simp only [call_set_value, hcall, solutions_Solution_SetValue, hss, hk, hv, set_value, hvalid,
      if_true]
  have hstore : bindValue cfg.policy [] "branch_target" (.str "prod")
      = [("branch_target", [.str "prod"])] := by
    cases cfg.policy <;> rfl
  simp only [exampleScenario, hconstruct, hset, hstore, generate_run_sequence_one_object]
  rfl

theorem example_scenario_run_sequence_witness :
    exampleScenario { policy := .overwrite } "user" "label" "branch" (.str [112, 114, 111, 100]) =
      .ok [.obj [("cmd", .scalar (.str "run")), ("target", .scalar (.str "prod"))]] :=
  example_scenario_run_sequence { policy := .overwrite } "user" "label" "branch"
    (.str [112, 114, 111, 100]) (by decide) (by decide) (by decide)

/-- C7: for a template that references variables `a` and `b`, with `a`
bound to the 2 values `a1, a2` and `b` bound to the 3 values `b1, b2, b3`
(any further referenced variable carrying one value), `generate_run_sequence`
returns exactly 6 run configurations, one for each of the 6 `(a, b)`
combinations, none omitted and none twice: the substitution of each
combination, ordered with the first-appearing of the two variables as the
outer loop and the other as the innermost; when the values of each variable
are different, so are the 6 configurations. -/
theorem generate_run_sequence_two_by_three (s : Solution) (arg : PyObject) (a b : String)
    (a1 a2 b1 b2 b3 : Scalar) (hab : a ≠ b)
    (ha : a ∈ s.templateTree.names) (hb : b ∈ s.templateTree.names)
    (hva : s.variableStore.lookup a = some [a1, a2])
    (hvb : s.variableStore.lookup b = some [b1, b2, b3])
    (hothers : ∀ n ∈ s.templateTree.names, n ≠ a → n ≠ b →
      ∃ v, s.variableStore.lookup n = some [v]) :
    ∃ d11 d12 d13 d21 d22 d23 : Doc,
      substitute (combination s a b a1 b1) s.templateTree = .ok d11 ∧
      substitute (combination s a b a1 b2) s.templateTree = .ok d12 ∧
      substitute (combination s a b a1 b3) s.templateTree = .ok d13 ∧
      substitute (combination s a b a2 b1) s.templateTree = .ok d21 ∧
      substitute (combination s a b a2 b2) s.templateTree = .ok d22 ∧
      substitute (combination s a b a2 b3) s.templateTree = .ok d23 ∧
      (generate_run_sequence s [arg] []).1 =
        .ok (if appearsBefore a b (referencedNames s.templateTree) = true
             then [d11, d12, d13, d21, d22, d23]
             else [d11, d21, d12, d22, d13, d23]) ∧
      (∀ docs, (generate_run_sequence s [arg] []).1 = .ok docs → docs.length = 6) ∧
      (a1 ≠ a2 → b1 ≠ b2 → b1 ≠ b3 → b2 ≠ b3 →
        [d11, d12, d13, d21, d22, d23].Nodup) := by
  obtain ⟨d11, h11⟩ := combination_substitute_ok s a b a1 b1 hothers
  obtain ⟨d12, h12⟩ := combination_substitute_ok s a b a1 b2 hothers
  obtain ⟨d13, h13⟩ := combination_substitute_ok s a b a1 b3 hothers
  obtain ⟨d21, h21⟩ := combination_substitute_ok s a b a2 b1 hothers
  obtain ⟨d22, h22⟩ := combination_substitute_ok s a b a2 b2 hothers
  obtain ⟨d23, h23⟩ := combination_substitute_ok s a b a2 b3 hothers
  have hbound : ∀ n ∈ referencedNames s.templateTree, ∃ vs, s.variableStore.lookup n = some vs := by
    intro n hn
    have hn2 : n ∈ s.templateTree.names := (mem_firstOccurrences _ n).mp hn
    by_cases h1 : n = a
    · exact ⟨_, h1 ▸ hva⟩
    · by_cases h2 : n = b
      · exact ⟨_, h2 ▸ hvb⟩
      · obtain ⟨v, hv⟩ := hothers n hn2 h1 h2
        exact ⟨_, hv⟩
  have hrun : (generate_run_sequence s [arg] []).1 =
      .ok (if appearsBefore a b (referencedNames s.templateTree) = true
           then [d11, d12, d13, d21, d22, d23]
           else [d11, d21, d12, d22, d13, d23]) := by
    rw [generate_run_sequence_one_object]
    simp only [expand, lookupAll_bound _ _ hbound,
      assignments_two_by_three s a b a1 a2 b1 b2 b3 hab ha hb hva hvb hothers]
    split_ifs <;> simp [substituteAll, h11, h12, h13, h21, h22, h23]
  refine ⟨d11, d12, d13, d21, d22, d23, h11, h12, h13, h21, h22, h23, hrun, ?_, ?_⟩
  · intro docs hdocs
    rw [hrun] at hdocs
    simp only [Except.ok.injEq] at hdocs
    subst hdocs
    split_ifs <;> rfl
  · intro hA h12n h13n h23n
    have inj := combination_injective s a b hab ha hb
    simp only [List.nodup_cons, List.mem_cons, List.mem_singleton, List.not_mem_nil,
      List.nodup_nil, not_or, not_false_eq_true, and_true]
    refine ⟨⟨?_, ?_, ?_, ?_, ?_⟩, ⟨?_, ?_, ?_, ?_⟩, ⟨?_, ?_, ?_⟩, ⟨?_, ?_⟩, ?_⟩
    · exact fun e => h12n (inj _ _ _ _ _ _ h11 h12 e).2
    · exact fun e => h13n (inj _ _ _ _ _ _ h11 h13 e).2
    · exact fun e => hA (inj _ _ _ _ _ _ h11 h21 e).1
    · exact fun e => hA (inj _ _ _ _ _ _ h11 h22 e).1
    · exact fun e => hA (inj _ _ _ _ _ _ h11 h23 e).1
    · exact fun e => h23n (inj _ _ _ _ _ _ h12 h13 e).2
    · exact fun e => hA (inj _ _ _ _ _ _ h12 h21 e).1
    · exact fun e => hA (inj _ _ _ _ _ _ h12 h22 e).1
    · exact fun e => hA (inj _ _ _ _ _ _ h12 h23 e).1
    · exact fun e => hA (inj _ _ _ _ _ _ h13 h21 e).1
    · exact fun e => hA (inj _ _ _ _ _ _ h13 h22 e).1
    · exact fun e => hA (inj _ _ _ _ _ _ h13 h23 e).1
    · exact fun e => h12n (inj _ _ _ _ _ _ h21 h22 e).2
    · exact fun e => h13n (inj _ _ _ _ _ _ h21 h23 e).2
    · exact fun e => h23n (inj _ _ _ _ _ _ h22 h23 e).2

theorem generate_run_sequence_two_by_three_witness :
    ("a" ∈ matrixSolution.templateTree.names ∧ "b" ∈ matrixSolution.templateTree.names ∧
      matrixSolution.variableStore.lookup "a" = some [.str "x", .str "y"] ∧
      matrixSolution.variableStore.lookup "b" = some [.num 10, .num 20, .num 30] ∧
      appearsBefore "a" "b" (referencedNames matrixSolution.templateTree) = false) ∧
    ∃ d11 d12 d13 d21 d22 d23 : Doc,
      substitute (combination matrixSolution "a" "b" (.str "x") (.num 10))
        matrixSolution.templateTree = .ok d11 ∧
      substitute (combination matrixSolution "a" "b" (.str "x") (.num 20))
        matrixSolution.templateTree = .ok d12 ∧
      substitute (combination matrixSolution "a" "b" (.str "x") (.num 30))
        matrixSolution.templateTree = .ok d13 ∧
      substitute (combination matrixSolution "a" "b" (.str "y") (.num 10))
        matrixSolution.templateTree = .ok d21 ∧
      substitute (combination matrixSolution "a" "b" (.str "y") (.num 20))
        matrixSolution.templateTree = .ok d22 ∧
      substitute (combination matrixSolution "a" "b" (.str "y") (.num 30))
        matrixSolution.templateTree = .ok d23 ∧
      (generate_run_sequence matrixSolution [PyObject.none] []).1 =
        .ok (if appearsBefore "a" "b" (referencedNames matrixSolution.templateTree) = true
             then [d11, d12, d13, d21, d22, d23]
             else [d11, d21, d12, d22, d13, d23]) ∧
      (∀ docs, (generate_run_sequence matrixSolution [PyObject.none] []).1 = .ok docs →
        docs.length = 6) ∧
      (Scalar.str "x" ≠ Scalar.str "y" → Scalar.num 10 ≠ Scalar.num 20 →
        Scalar.num 10 ≠ Scalar.num 30 → Scalar.num 20 ≠ Scalar.num 30 →
        [d11, d12, d13, d21, d22, d23].Nodup) :=
  ⟨⟨by decide, by decide, rfl, rfl, by decide⟩,
   generate_run_sequence_two_by_three matrixSolution PyObject.none "a" "b"
     (.str "x") (.str "y") (.num 10) (.num 20) (.num 30)
     (by decide) (by decide) (by decide) rfl rfl
     (by
       intro n hn h1 h2
       have hn2 : n = "b" ∨ n = "c" ∨ n = "a" ∨ n = "b" := by
         simpa [matrixSolution, matrixTemplate, Template.names, namesList, namesFields] using hn
       rcases hn2 with h | h | h | h
       · exact absurd h h2
       · exact ⟨.bool false, by rw [h]; rfl⟩
       · exact absurd h h1
       · exact absurd h h2)⟩

/-- C8, as stated, fails, whatever the engine: no single failure names two
variables.  A template that references `x` and `y`, over a store that binds
neither, would have to fail with `UnboundVariable("x")` and with
`UnboundVariable("y")` at once. -/
theorem unbound_error_cannot_name_every_variable :
    (¬ ∃ engine : Template → VariableStore → Except Error (List Doc),
        ∀ (t : Template) (st : VariableStore) (x : String),
          x ∈ t.names → st.lookup x = Option.none → engine t st = .error (.UnboundVariable x)) ∧
    ("x" ∈ (Template.arr [.placeholder "y", .placeholder "x"]).names ∧
      "y" ∈ (Template.arr [.placeholder "y", .placeholder "x"]).names ∧
      VariableStore.lookup [] "x" = Option.none ∧ VariableStore.lookup [] "y" = Option.none ∧
      ¬ ((generate_run_sequence
            { context := { content := "[\"$y\", \"$x\"]", user := "u", label := "l",
                           branch := "b" },
              templateTree := .arr [.placeholder "y", .placeholder "x"],
              variableStore := [] } [PyObject.none] []).1
            = .error (.failed (.UnboundVariable "x")) ∧
          (generate_run_sequence
            { context := { content := "[\"$y\", \"$x\"]", user := "u", label := "l",
                           branch := "b" },
              templateTree := .arr [.placeholder "y", .placeholder "x"],
              variableStore := [] } [PyObject.none] []).1
            = .error (.failed (.UnboundVariable "y")))) := by
  refine ⟨?_, by decide, by decide, rfl, rfl, ?_⟩
  · rintro ⟨engine, h⟩
    have hx := h (.arr [.placeholder "y", .placeholder "x"]) [] "x" (by decide) rfl
    have hy := h (.arr [.placeholder "y", .placeholder "x"]) [] "y" (by decide) rfl
    rw [hx] at hy
    simp at hy
  · rintro ⟨hx, hy⟩
    rw [hx] at hy
    simp at hy

/-- C8 (amended): for every template that references a variable `x` and
every variable store with no binding for `x`, `generate_run_sequence` fails
with `UnboundVariable(n)` for a referenced variable `n` that has no binding,
and returns no sequence, not even a partial one; `n` is `x` when `x` is the
only referenced variable without a binding. -/
theorem generate_run_sequence_unbound (s : Solution) (arg : PyObject) (x : String)
    (hx : x ∈ s.templateTree.names) (hun : s.variableStore.lookup x = Option.none) :
    ∃ n, n ∈ s.templateTree.names ∧ s.variableStore.lookup n = Option.none ∧
      (generate_run_sequence s [arg] []).1 = .error (.failed (.UnboundVariable n)) ∧
      (∀ docs, (generate_run_sequence s [arg] []).1 ≠ .ok docs) ∧
      ((∀ m ∈ s.templateTree.names, m ≠ x → s.variableStore.lookup m ≠ Option.none) →
        n = x) := by
  have hxr : x ∈ referencedNames s.templateTree :=
    (mem_firstOccurrences _ x).mpr hx
  cases hf : (referencedNames s.templateTree).find?
      (fun m => (s.variableStore.lookup m).isNone) with
  | none =>
    rw [List.find?_eq_none] at hf
    have := hf x hxr
    simp [hun] at this
  | some n =>
    have hn := List.find?_some hf
    have hnmem := List.mem_of_find?_eq_some hf
    have hnone : s.variableStore.lookup n = Option.none := by
      simpa using hn
    have hnin : n ∈ s.templateTree.names := (mem_firstOccurrences _ n).mp hnmem
    have herr : (generate_run_sequence s [arg] []).1 = .error (.failed (.UnboundVariable n)) := by
      rw [generate_run_sequence_one_object]
      simp only [expand, lookupAll_firstUnbound _ _ n hf]
    refine ⟨n, hnin, hnone, herr, ?_, ?_⟩
    · intro docs h
      rw [herr] at h
      cases h
    · intro honly
      by_contra hne
      exact honly n hnin hne hnone

theorem generate_run_sequence_unbound_witness :
    ("a" ∈ unboundSolution.templateTree.names ∧
      unboundSolution.variableStore.lookup "a" = Option.none) ∧
    ∃ n, n ∈ unboundSolution.templateTree.names ∧
      unboundSolution.variableStore.lookup n = Option.none ∧
      (generate_run_sequence unboundSolution [PyObject.none] []).1
        = .error (.failed (.UnboundVariable n)) ∧
      (∀ docs, (generate_run_sequence unboundSolution [PyObject.none] []).1 ≠ .ok docs) ∧
      ((∀ m ∈ unboundSolution.templateTree.names, m ≠ "a" →
          unboundSolution.variableStore.lookup m ≠ Option.none) → n = "a") :=
  ⟨⟨by decide, rfl⟩,
   generate_run_sequence_unbound unboundSolution PyObject.none "a" (by decide) rfl⟩

theorem checkBindings_invalid :
    ∀ bindings : List (String × Doc),
      (∃ p ∈ bindings, validName p.1 = false ∨ ∀ v, p.2 ≠ .scalar v) →
        checkBindings bindings = Option.none
  | [], h => by simp at h
  | (name, .scalar v) :: rest, h => by
    simp only [checkBindings]
    by_cases hv : validName name = true
    · simp only [hv, if_true]
      have hrest : ∃ p ∈ rest, validName p.1 = false ∨ ∀ v, p.2 ≠ .scalar v := by
        obtain ⟨p, hp, hbad⟩ := h
        simp only [List.mem_cons] at hp
        rcases hp with rfl | hp
        · rcases hbad with hbad | hbad
          · simp [hv] at hbad
          · exact absurd rfl (hbad v)
        · exact ⟨p, hp, hbad⟩
      rw [checkBindings_invalid rest hrest]
    · simp [hv]
  | (name, .arr items) :: rest, _ => by simp [checkBindings]
  | (name, .obj fields) :: rest, _ => by simp [checkBindings]

/-- C9: `add_values` is atomic: for every variable store and every batch in
which at least one pair is invalid (malformed name or non-scalar value),
`add_values` fails with `InvalidBinding` and the state after the call equals
the state before it, so the store is unchanged and a subsequent expansion
behaves as before the call. -/
theorem add_values_atomic (cfg : EngineConfig) (s : Solution) (bindings : List (String × Doc))
    (h : ∃ p ∈ bindings, validName p.1 = false ∨ ∀ v, p.2 ≠ .scalar v) :
    (add_values cfg s bindings).1 = .error .InvalidBinding ∧
      (add_values cfg s bindings).2 = s ∧
      (add_values cfg s bindings).2.variableStore = s.variableStore ∧
      (∀ (args : List PyObject) (kwargs : List (String × PyObject)),
        (generate_run_sequence (add_values cfg s bindings).2 args kwargs).1
          = (generate_run_sequence s args kwargs).1) := by
  simp [add_values, checkBindings_invalid bindings h]

theorem add_values_atomic_witness :
    (∃ p ∈ [("b", Doc.scalar (.num 2)), ("a", Doc.arr [])],
        validName p.1 = false ∨ ∀ v, p.2 ≠ .scalar v) ∧
    (add_values { policy := .append } unboundSolution
        [("b", .scalar (.num 2)), ("a", .arr [])]).1 = .error .InvalidBinding ∧
    (add_values { policy := .append } unboundSolution
        [("b", .scalar (.num 2)), ("a", .arr [])]).2 = unboundSolution ∧
    (add_values { policy := .append } unboundSolution
        [("b", .scalar (.num 2)), ("a", .arr [])]).2.variableStore
      = unboundSolution.variableStore ∧
    (∀ (args : List PyObject) (kwargs : List (String × PyObject)),
      (generate_run_sequence
          (add_values { policy := .append } unboundSolution
            [("b", .scalar (.num 2)), ("a", .arr [])]).2 args kwargs).1
        = (generate_run_sequence unboundSolution args kwargs).1) :=
  have hbad : ∃ p ∈ [("b", Doc.scalar (.num 2)), ("a", Doc.arr [])],
      validName p.1 = false ∨ ∀ v, p.2 ≠ .scalar v :=
    ⟨("a", .arr []), by simp, Or.inr (fun v hv => by cases hv)⟩
  ⟨hbad, add_values_atomic _ unboundSolution _ hbad⟩

end Solutions
